import Mathlib

/-!
Verification of the admission/waitlist engine of the CoC event-registration
bot (`DebugScriptHelper/bot.py`).  The definitions below are a shallow
embedding of the Python source: the module-level functions that are in force
at runtime (for functions defined twice in the file, Python keeps the later
definition) are translated into pure Lean functions on an explicit state.

Data representation:
* a Python `dict` is an insertion-ordered association list whose keys are
  unique; assignment updates the entry in place, a new key is appended;
* the roster (`event["teams"]`) maps team name to a bare integer size and the
  waitlist is a list of `(team_name, size)` pairs, which is the shape the
  effective (later) implementation reads and writes;
* Python integers are `Int`.
-/

/-- `c.lower()` on one character (the names in this system are ASCII, where
Python's Unicode lowercasing agrees with the ASCII map). -/
def lowChar (c : Char) : Char :=
  if 'A' ≤ c ∧ c ≤ 'Z' then Char.ofNat (c.toNat + 32) else c

/-- `s.lower()` on a Python string. -/
def low (s : String) : String := ⟨s.data.map lowChar⟩

/-- `s.strip()` on a Python string. -/
def strip (s : String) : String :=
  ⟨((s.data.dropWhile Char.isWhitespace).reverse.dropWhile Char.isWhitespace).reverse⟩

abbrev Roster := List (String × Int)
abbrev Waitlist := List (String × Int)
abbrev Assignments := List (String × String)

/-- Dict read with default `0` (`d.get(k, 0)` / `d[k]` on present keys). -/
def getD : Roster → String → Int
  | [], _ => 0
  | (n, s) :: rest, k => if n = k then s else getD rest k

/-- Dict assignment `d[k] = v`: update in place, else append. -/
def setKey : Roster → String → Int → Roster
  | [], k, v => [(k, v)]
  | (n, s) :: rest, k, v => if n = k then (k, v) :: rest else (n, s) :: setKey rest k v

/-- Dict removal `d.pop(k)` (the key occurs at most once in a real dict). -/
def popKey : Roster → String → Roster
  | [], _ => []
  | (n, s) :: rest, k => if n = k then rest else (n, s) :: popKey rest k

/-- First roster entry matching `t` case-insensitively (`t` already lowered):
the `for name, size in teams.items(): if name.lower() == t: ... break` scans. -/
def findCI : Roster → String → Option (String × Int)
  | [], _ => none
  | (n, s) :: rest, t => if low n = t then some (n, s) else findCI rest t

/-- Sum of all roster sizes. -/
def rosterSum (l : Roster) : Int := (l.map Prod.snd).sum

/-- First waitlist entry matching `t` case-insensitively, with its index. -/
def wlFirst : Waitlist → String → Option (Nat × String × Int)
  | [], _ => none
  | (n, s) :: rest, t =>
    if low n = t then some (0, n, s)
    else (wlFirst rest t).map (fun p => (p.1 + 1, p.2))

/-- Total waitlist size of team `t` (sum over all case-insensitive matches). -/
def wlSizeOf (wl : Waitlist) (t : String) : Int :=
  ((wl.filter (fun p => low p.1 = t)).map Prod.snd).sum

/-- Team size in the roster per `get_team_total_size` (first case-insensitive
match, `0` when absent). -/
def eventSizeOf (l : Roster) (t : String) : Int :=
  ((findCI l t).map Prod.snd).getD 0

/-- Assignment lookup `user_team_assignments.get(uid, "")`. -/
def getA : Assignments → String → String
  | [], _ => ""
  | (x, y) :: rest, u => if x = u then y else getA rest u

/-- Assignment write `user_team_assignments[uid] = team`. -/
def setA : Assignments → String → String → Assignments
  | [], u, t => [(u, t)]
  | (x, y) :: rest, u, t => if x = u then (u, t) :: rest else (x, y) :: setA rest u t

/-- The mutable event record (`event_data["event"]`); descriptive fields that
the engine never reads are omitted. -/
structure Event where
  max_slots : Int
  slots_used : Int
  max_team_size : Int
  teams : Roster
  waitlist : Waitlist
  expiry_date : Int
  deriving Repr, DecidableEq

/-- Global mutable state: the optional active event plus the actor→team map. -/
structure St where
  ev : Option Event
  assigns : Assignments
  deriving Repr, DecidableEq

/-- Promotion loop of `process_waitlist_after_change` (bot.py:2912-2930):
serve the waitlist head while slots remain, splitting the head in place when
it does not fit entirely. -/
def process_waitlist_loop : Roster → Int → Waitlist → Int → Roster × Int × Waitlist
  | teams, used, [], _ => (teams, used, [])
  | teams, used, (n, s) :: rest, free =>
    if free ≤ 0 then (teams, used, (n, s) :: rest)
    else if s ≤ free then
      process_waitlist_loop (setKey teams n (getD teams n + s)) (used + s) rest (free - s)
    else
      (setKey teams n (getD teams n + free), used + free, (n, s - free) :: rest)

/-- `process_waitlist_after_change` (bot.py:2897): early exit when nothing is
free or the waitlist is empty, otherwise run the promotion loop. -/
def process_waitlist_after_change (ev : Event) (free_slots : Int) : Event :=
  if free_slots ≤ 0 ∨ ev.waitlist = [] then ev
  else
    let r := process_waitlist_loop ev.teams ev.slots_used ev.waitlist free_slots
    { ev with teams := r.1, slots_used := r.2.1, waitlist := r.2.2 }

/-- Cancellation branch of `update_team_size` (bot.py:2579-2622), event part:
pop the first case-insensitive roster match (when the team holds slots),
remove every case-insensitive waitlist match (when it has waitlist members),
then feed exactly the freed roster size back to the promoter. -/
def uts_cancel (ev : Event) (team : String) : Event :=
  let event_size := eventSizeOf ev.teams team
  let waitlist_size := wlSizeOf ev.waitlist team
  let p1 : Roster × Int :=
    if event_size > 0 then
      match findCI ev.teams team with
      | some rp => (popKey ev.teams rp.1, ev.slots_used - getD ev.teams rp.1)
      | none => (ev.teams, ev.slots_used)
    else (ev.teams, ev.slots_used)
  let wl1 :=
    if waitlist_size > 0 then ev.waitlist.filter (fun p => ¬ low p.1 = team)
    else ev.waitlist
  let ev1 : Event := { ev with teams := p1.1, slots_used := p1.2, waitlist := wl1 }
  if event_size > 0 then process_waitlist_after_change ev1 event_size else ev1

/-- Increase branch of `update_team_size` (bot.py:2684-2792), event part:
fill free event slots first; a remainder is merged into the first existing
waitlist entry of the team (set to its total waitlist size plus the
remainder) or appended as a fresh `(team, remainder)` pair. -/
def uts_increase (ev : Event) (team : String) (size_difference : Int) : Event :=
  let waitlist_size := wlSizeOf ev.waitlist team
  let available_slots := ev.max_slots - ev.slots_used
  let reg? := findCI ev.teams team
  let wlf? := wlFirst ev.waitlist team
  if size_difference ≤ available_slots then
    let teams1 :=
      match reg? with
      | some rp => setKey ev.teams rp.1 (getD ev.teams rp.1 + size_difference)
      | none => setKey ev.teams team size_difference
    { ev with teams := teams1, slots_used := ev.slots_used + size_difference }
  else
    let event_addition := available_slots
    let waitlist_addition := size_difference - available_slots
    let teams1 :=
      match reg? with
      | some rp => setKey ev.teams rp.1 (getD ev.teams rp.1 + event_addition)
      | none => setKey ev.teams team event_addition
    let wl1 :=
      match wlf? with
      | some q => ev.waitlist.set q.1 (q.2.1, waitlist_size + waitlist_addition)
      | none => ev.waitlist ++ [(team, waitlist_addition)]
    { ev with teams := teams1, slots_used := ev.slots_used + event_addition, waitlist := wl1 }

/-- Decrease branch of `update_team_size` (bot.py:2794-2884), event part:
the team's first waitlist entry absorbs `min(waitlist_size, reduction)` (set
to the team's total waitlist size minus that, or removed at zero); any
remaining reduction shrinks the roster entry and is then handed to the
promoter. -/
def uts_decrease (ev : Event) (team : String) (reduction : Int) : Event :=
  let event_size := eventSizeOf ev.teams team
  let waitlist_size := wlSizeOf ev.waitlist team
  let waitlist_reduction := min waitlist_size reduction
  let event_reduction := reduction - waitlist_reduction
  let reg? := findCI ev.teams team
  let wlf? := wlFirst ev.waitlist team
  let wl1 :=
    if waitlist_reduction > 0 then
      match wlf? with
      | some q =>
        let new_waitlist_size := waitlist_size - waitlist_reduction
        if new_waitlist_size > 0 then ev.waitlist.set q.1 (q.2.1, new_waitlist_size)
        else ev.waitlist.eraseIdx q.1
      | none => ev.waitlist
    else ev.waitlist
  let p1 : Roster × Int :=
    if event_reduction > 0 then
      match reg? with
      | some rp =>
        let new_event_size := event_size - event_reduction
        if new_event_size > 0 then
          (setKey ev.teams rp.1 new_event_size, ev.slots_used - event_reduction)
        else
          (popKey ev.teams rp.1, ev.slots_used - getD ev.teams rp.1)
      | none => (ev.teams, ev.slots_used)
    else (ev.teams, ev.slots_used)
  let ev1 : Event := { ev with teams := p1.1, slots_used := p1.2, waitlist := wl1 }
  if event_reduction > 0 then process_waitlist_after_change ev1 event_reduction else ev1

/-- `update_team_size` (bot.py:2472-2895), the effective (later) definition:
all event/waitlist/assignment mutations of one size-change request.  Message
sending, logging, persistence and display refresh are external side effects
and are dropped.  `clan_rep` is the result of the external role check. -/
def update_team_size (st : St) (uid rawName : String) (new_size : Int)
    (is_admin clan_rep : Bool) : St :=
  if strip rawName = "" then st
  else
    let team := low (strip rawName)
    match st.ev with
    | none => st
    | some ev =>
      if ¬ is_admin ∧ ¬ clan_rep then st
      else if ¬ is_admin ∧ low (getA st.assigns uid) ≠ "" ∧
          low (getA st.assigns uid) ≠ team then st
      else if new_size < 0 then st
      else if new_size > ev.max_team_size ∧ ¬ is_admin then st
      else
        let current_total := eventSizeOf ev.teams team + wlSizeOf ev.waitlist team
        let assigns1 :=
          if current_total = 0 ∧ new_size > 0 then setA st.assigns uid team else st.assigns
        if new_size = 0 then
          { ev := some (uts_cancel ev team),
            assigns := assigns1.filter (fun p => ¬ low p.2 = team) }
        else
          let size_difference := new_size - current_total
          if size_difference = 0 then { ev := some ev, assigns := assigns1 }
          else if size_difference > 0 then
            { ev := some (uts_increase ev team size_difference), assigns := assigns1 }
          else
            { ev := some (uts_decrease ev team (-size_difference)), assigns := assigns1 }

/-- `admin_add_team` (bot.py:2975-3163), the effective (later) definition:
direct admin addition of a team, optionally forced onto the waitlist.  Its
duplicate checks against roster and waitlist compare names case-sensitively. -/
def admin_add_team (st : St) (uid? : Option String) (team_name : String) (size : Int)
    (force_waitlist : Bool) : St :=
  match st.ev with
  | none => st
  | some ev =>
    if ev.teams.any (fun p => p.1 = team_name) then st
    else if ev.waitlist.any (fun p => p.1 = team_name) then st
    else if size ≤ 0 ∨ size > ev.max_team_size then st
    else
      let assigns1 :=
        match uid? with
        | some u => setA st.assigns u team_name
        | none => st.assigns
      if force_waitlist then
        { ev := some { ev with waitlist := ev.waitlist ++ [(team_name, size)] },
          assigns := assigns1 }
      else
        let available_slots := ev.max_slots - ev.slots_used
        if size ≤ available_slots then
          let ev1 : Event :=
            { ev with slots_used := ev.slots_used + size,
                      teams := setKey ev.teams team_name size }
          { ev := some ev1, assigns := assigns1 }
        else if available_slots > 0 then
          let ev1 : Event :=
            { ev with slots_used := ev.slots_used + available_slots,
                      teams := setKey ev.teams team_name available_slots,
                      waitlist := ev.waitlist ++ [(team_name, size - available_slots)] }
          { ev := some ev1, assigns := assigns1 }
        else
          { ev := some { ev with waitlist := ev.waitlist ++ [(team_name, size)] },
            assigns := assigns1 }

/-- `/close` (bot.py:4152): capacity is frozen at the current usage. -/
def close_registration (ev : Event) : Event := { ev with max_slots := ev.slots_used }

/-- `/open` (bot.py:4188-4213): capacity is restored to the configured default
and any newly free slots are drained into the waitlist. -/
def open_registration (ev : Event) (default_max_slots : Int) : Event :=
  let ev1 : Event := { ev with max_slots := default_max_slots }
  let new_available_slots := default_max_slots - ev1.slots_used
  if new_available_slots > 0 then process_waitlist_after_change ev1 new_available_slots else ev1

/-- Whole-entry promotion loop of the background task (bot.py:3380-3404);
unlike `process_waitlist_loop` it never splits a team: a head that does not
fit stops the drain (`else: break`). -/
def sweep_loop : Roster → Int → Waitlist → Int → Roster × Int × Waitlist
  | teams, used, [], _ => (teams, used, [])
  | teams, used, (n, s) :: rest, avail =>
    if avail ≤ 0 then (teams, used, (n, s) :: rest)
    else if s ≤ avail then
      sweep_loop (setKey teams n (getD teams n + s)) (used + s) rest (avail - s)
    else (teams, used, (n, s) :: rest)

/-- One pass of the background task `check_waitlist_and_expiry`
(bot.py:3334-3420): when `now` is past `expiry_date` the event record is
cleared (`event_data.clear()`) while `user_team_assignments` is left
untouched; otherwise free slots are drained into the waitlist. -/
def check_waitlist_and_expiry (st : St) (now : Int) : St :=
  match st.ev with
  | none => st
  | some ev =>
    if now > ev.expiry_date then { ev := none, assigns := st.assigns }
    else if ev.slots_used < ev.max_slots ∧ ev.waitlist ≠ [] then
      let r := sweep_loop ev.teams ev.slots_used ev.waitlist (ev.max_slots - ev.slots_used)
      { ev := some { ev with teams := r.1, slots_used := r.2.1, waitlist := r.2.2 },
        assigns := st.assigns }
    else st

/-- `create_event_internal` (bot.py:3543-3554): a fresh event with the
configured default capacity and team-size cap and an empty roster/waitlist. -/
def create_event (default_max_slots default_max_team_size expiry : Int) : Event :=
  { max_slots := default_max_slots, slots_used := 0,
    max_team_size := default_max_team_size, teams := [], waitlist := [],
    expiry_date := expiry }

/-- One mutating operation of the engine, with `D` the configured
`DEFAULT_MAX_SLOTS`.  These are the operations named by the reachability
claims: register/edit/cancel via `update_team_size`, admin team addition,
waitlist promotion (as invoked on freed capacity, and the background sweep),
close-registration, open-registration, and automatic expiry. -/
inductive Step (D : Int) : St → St → Prop
  | set_team_size (st : St) (uid name : String) (n : Int) (adm rep : Bool) :
      Step D st (update_team_size st uid name n adm rep)
  | add_team (st : St) (uid? : Option String) (name : String) (n : Int) (fw : Bool) :
      Step D st (admin_add_team st uid? name n fw)
  | close (st : St) (ev : Event) (h : st.ev = some ev) :
      Step D st { ev := some (close_registration ev), assigns := st.assigns }
  | open_reg (st : St) (ev : Event) (h : st.ev = some ev) :
      Step D st { ev := some (open_registration ev D), assigns := st.assigns }
  | promote (st : St) (ev : Event) (free : Int) (h : st.ev = some ev) (hf : 0 ≤ free)
      (hcap : ev.slots_used + free ≤ ev.max_slots) :
      Step D st { ev := some (process_waitlist_after_change ev free), assigns := st.assigns }
  | sweep (st : St) (now : Int) :
      Step D st (check_waitlist_and_expiry st now)

/-- States reachable from event creation (`A0` is whatever actor→team map was
in memory when the event was created). -/
def Reachable (D M x : Int) (A0 : Assignments) (st : St) : Prop :=
  Relation.ReflTransGen (Step D) { ev := some (create_event D M x), assigns := A0 } st

example : low "Alpha" = "alpha" := by decide

example : setKey [("a", 2), ("b", 3)] "b" 7 = [("a", 2), ("b", 7)] := by decide

example : wlFirst [("B", 1), ("Alpha", 4), ("alpha", 5)] "alpha" = some (1, "Alpha", 4) := by
  decide

example : strip "  Alpha " = "Alpha" := by decide

/-! ## The two on-disk shapes and `get_team_total_size` -/

/-- A roster value as stored on disk: legacy bare size, or `{size, id}`. -/
inductive TVal where
  | legacy (size : Int)
  | withId (size : Int) (id : String)
  deriving Repr, DecidableEq

abbrev RosterF := List (String × TVal)

/-- A waitlist entry: legacy 2-tuple (`none`) or 3-tuple with an id. -/
abbrev WaitlistF := List (String × Int × Option String)

/-- Roster shape detection (bot.py:118-120): the first stored value decides. -/
def using_team_ids : RosterF → Bool
  | [] => false
  | (_, TVal.withId _ _) :: _ => true
  | (_, TVal.legacy _) :: _ => false

/-- Size of a stored roster value; in the with-id loop the source reads
`data.get("size", 0)` (it would raise on a bare `int`, so a mixed-shape table
never returns there — the claims evaluate uniform tables only). -/
def tvalSize : TVal → Int
  | TVal.legacy s => s
  | TVal.withId s _ => s

/-- Waitlist shape detection (bot.py:143-145): the first entry decides. -/
def using_waitlist_ids : WaitlistF → Bool
  | [] => false
  | (_, _, id?) :: _ => id?.isSome

/-- `get_team_total_size` (bot.py:94-165).  Returns
`(event_size, waitlist_size, total_size, registered_name)`; the per-entry
waitlist index list it also returns is not needed by any claim.  On a
mixed-shape state the source raises (`data.get` on an `int`, or unpacking a
3-tuple as a pair); the claims evaluate uniformly-shaped states only, where
this model agrees with the source. -/
def get_team_total_size (teams : RosterF) (waitlist : WaitlistF) (team_name : String) :
    Int × Int × Int × Option String :=
  let t := low (strip team_name)
  let er : Int × Option String :=
    if using_team_ids teams then
      match teams.find? (fun p => low p.1 = t) with
      | some p => (tvalSize p.2, some p.1)
      | none => (0, none)
    else
      match teams.find? (fun p => low p.1 = t) with
      | some p => (tvalSize p.2, some p.1)
      | none => (0, none)
  let ws : Int :=
    if using_waitlist_ids waitlist then
      ((waitlist.filter (fun e => e.2.2.isSome ∧ low e.1 = t)).map (fun e => e.2.1)).sum
    else
      ((waitlist.filter (fun e => low e.1 = t)).map (fun e => e.2.1)).sum
  (er.1, ws, er.1 + ws, er.2)

/-- The legacy and the current encoding of one and the same state: equal
names and sizes position by position, bare values on the left, id-carrying
values on the right. -/
def RosterAgrees (lg cur : RosterF) : Prop :=
  List.Forall₂
    (fun p q => p.1 = q.1 ∧ ∃ s, p.2 = TVal.legacy s ∧ ∃ i, q.2 = TVal.withId s i) lg cur

/-- Same-state correspondence for the two waitlist shapes. -/
def WaitlistAgrees (lg cur : WaitlistF) : Prop :=
  List.Forall₂
    (fun e f => e.1 = f.1 ∧ e.2.1 = f.2.1 ∧ e.2.2 = none ∧ (f.2.2).isSome = true) lg cur

/-! ## Association-list lemmas -/

/-- All roster sizes are non-negative. -/
def TeamsOK (l : Roster) : Prop := ∀ p ∈ l, 0 ≤ p.2

/-- All waitlist sizes are non-negative. -/
def WlOK (w : Waitlist) : Prop := ∀ p ∈ w, 0 ≤ p.2

theorem rosterSum_cons (n : String) (s : Int) (l : Roster) :
    rosterSum ((n, s) :: l) = s + rosterSum l := by
  simp [rosterSum]

theorem rosterSum_nonneg {l : Roster} (h : TeamsOK l) : 0 ≤ rosterSum l := by
  induction l with
  | nil => simp [rosterSum]
  | cons p rest ih =>
    have h1 : 0 ≤ p.2 := h p (List.mem_cons_self p rest)
    have h2 : TeamsOK rest := fun q hq => h q (List.mem_cons_of_mem p hq)
    have := ih h2
    simp only [rosterSum, List.map_cons, List.sum_cons] at *
    omega

theorem getD_nonneg {l : Roster} (h : TeamsOK l) (k : String) : 0 ≤ getD l k := by
  induction l with
  | nil => simp [getD]
  | cons p rest ih =>
    obtain ⟨n, s⟩ := p
    have h1 : 0 ≤ s := h (n, s) (List.mem_cons_self _ rest)
    have h2 : TeamsOK rest := fun q hq => h q (List.mem_cons_of_mem _ hq)
    simp only [getD]
    split
    · exact h1
    · exact ih h2

theorem getD_le_sum {l : Roster} (h : TeamsOK l) (k : String) : getD l k ≤ rosterSum l := by
  induction l with
  | nil => simp [getD, rosterSum]
  | cons p rest ih =>
    obtain ⟨n, s⟩ := p
    have h1 : 0 ≤ s := h (n, s) (List.mem_cons_self _ rest)
    have h2 : TeamsOK rest := fun q hq => h q (List.mem_cons_of_mem _ hq)
    have h3 : 0 ≤ rosterSum rest := rosterSum_nonneg h2
    simp only [getD, rosterSum_cons]
    split
    · omega
    · have := ih h2
      omega

theorem rosterSum_setKey (l : Roster) (k : String) (v : Int) :
    rosterSum (setKey l k v) = rosterSum l + v - getD l k := by
  induction l with
  | nil => simp [setKey, getD, rosterSum]
  | cons p rest ih =>
    obtain ⟨n, s⟩ := p
    simp only [setKey, getD]
    split
    · simp only [rosterSum_cons]; omega
    · simp only [rosterSum_cons]; omega

theorem rosterSum_popKey (l : Roster) (k : String) :
    rosterSum (popKey l k) = rosterSum l - getD l k := by
  induction l with
  | nil => simp [popKey, getD, rosterSum]
  | cons p rest ih =>
    obtain ⟨n, s⟩ := p
    simp only [popKey, getD]
    split
    · simp only [rosterSum_cons]; omega
    · simp only [rosterSum_cons]; omega

theorem teamsOK_setKey {l : Roster} (h : TeamsOK l) {v : Int} (hv : 0 ≤ v) (k : String) :
    TeamsOK (setKey l k v) := by
  induction l with
  | nil =>
    intro q hq
    simp [setKey] at hq
    simp [hq, hv]
  | cons p rest ih =>
    obtain ⟨n, s⟩ := p
    have h1 : 0 ≤ s := h (n, s) (List.mem_cons_self _ rest)
    have h2 : TeamsOK rest := fun q hq => h q (List.mem_cons_of_mem _ hq)
    simp only [setKey]
    split
    · intro q hq
      rcases List.mem_cons.mp hq with h' | h'
      · simp [h', hv]
      · exact h2 q h'
    · intro q hq
      rcases List.mem_cons.mp hq with h' | h'
      · simp [h', h1]
      · exact ih h2 q h'

theorem teamsOK_popKey {l : Roster} (h : TeamsOK l) (k : String) : TeamsOK (popKey l k) := by
  induction l with
  | nil => intro q hq; simp [popKey] at hq
  | cons p rest ih =>
    obtain ⟨n, s⟩ := p
    have h1 : 0 ≤ s := h (n, s) (List.mem_cons_self _ rest)
    have h2 : TeamsOK rest := fun q hq => h q (List.mem_cons_of_mem _ hq)
    simp only [popKey]
    split
    · exact h2
    · intro q hq
      rcases List.mem_cons.mp hq with h' | h'
      · simp [h', h1]
      · exact ih h2 q h'

/-- What a successful case-insensitive roster lookup pins down. -/
theorem findCI_spec {l : Roster} {t : String} {r : String} {s : Int}
    (h : findCI l t = some (r, s)) : low r = t ∧ getD l r = s ∧ (r, s) ∈ l := by
  induction l with
  | nil => simp [findCI] at h
  | cons p rest ih =>
    obtain ⟨n, v⟩ := p
    simp only [findCI] at h
    split at h
    · rename_i hlow
      obtain ⟨rfl, rfl⟩ := by simpa using h
      refine ⟨hlow, ?_, List.mem_cons_self _ _⟩
      simp [getD]
    · rename_i hlow
      obtain ⟨h1, h2, h3⟩ := ih h
      refine ⟨h1, ?_, List.mem_cons_of_mem _ h3⟩
      have hne : n ≠ r := by
        intro hEq
        exact hlow (hEq ▸ h1)
      simp [getD, hne]
      exact h2

theorem eventSizeOf_eq_of_findCI {l : Roster} {t r : String} {s : Int}
    (h : findCI l t = some (r, s)) : eventSizeOf l t = s := by
  simp [eventSizeOf, h]

theorem eventSizeOf_of_findCI_none {l : Roster} {t : String}
    (h : findCI l t = none) : eventSizeOf l t = 0 := by
  simp [eventSizeOf, h]

theorem wlSizeOf_nonneg {w : Waitlist} (h : WlOK w) (t : String) : 0 ≤ wlSizeOf w t := by
  induction w with
  | nil => simp [wlSizeOf]
  | cons p rest ih =>
    obtain ⟨n, s⟩ := p
    have h1 : 0 ≤ s := h (n, s) (List.mem_cons_self _ _)
    have h2 : WlOK rest := fun q hq => h q (List.mem_cons_of_mem _ hq)
    have h3 := ih h2
    simp only [wlSizeOf, List.filter] at *
    split
    · simp only [List.map_cons, List.sum_cons]; omega
    · exact h3

theorem wlOK_set {w : Waitlist} (h : WlOK w) {n : String} {v : Int} (hv : 0 ≤ v) (i : Nat) :
    WlOK (w.set i (n, v)) := by
  intro q hq
  rcases List.mem_or_eq_of_mem_set hq with h' | h'
  · exact h q h'
  · simp [h', hv]

theorem wlOK_eraseIdx {w : Waitlist} (h : WlOK w) (i : Nat) : WlOK (w.eraseIdx i) :=
  fun q hq => h q ((List.eraseIdx_sublist w i).mem hq)

theorem wlOK_filter {w : Waitlist} (h : WlOK w) (p : String × Int → Bool) :
    WlOK (w.filter p) :=
  fun q hq => h q ((List.filter_sublist w).mem hq)

theorem wlOK_append {w : Waitlist} (h : WlOK w) {n : String} {v : Int} (hv : 0 ≤ v) :
    WlOK (w ++ [(n, v)]) := by
  intro q hq
  rcases List.mem_append.mp hq with h' | h'
  · exact h q h'
  · simp at h'
    simp [h', hv]

theorem getD_of_no_key {l : Roster} {k : String} (h : ∀ p ∈ l, p.1 ≠ k) : getD l k = 0 := by
  induction l with
  | nil => simp [getD]
  | cons p rest ih =>
    obtain ⟨n, s⟩ := p
    have h1 : n ≠ k := h (n, s) (List.mem_cons_self _ _)
    simp only [getD, h1, if_false]
    exact ih fun q hq => h q (List.mem_cons_of_mem _ hq)

/-- Accounting facts of the interactive promotion loop: the roster sum tracks
`slots_used`, consumption never exceeds the freed budget, `slots_used` never
shrinks, and non-negativity of all entries is preserved. -/
theorem process_waitlist_loop_inv :
    ∀ (w : Waitlist) (teams : Roster) (used free : Int),
      TeamsOK teams → WlOK w → 0 ≤ free →
      rosterSum (process_waitlist_loop teams used w free).1 =
        rosterSum teams + ((process_waitlist_loop teams used w free).2.1 - used) ∧
      (process_waitlist_loop teams used w free).2.1 ≤ used + free ∧
      used ≤ (process_waitlist_loop teams used w free).2.1 ∧
      TeamsOK (process_waitlist_loop teams used w free).1 ∧
      WlOK (process_waitlist_loop teams used w free).2.2 := by
  intro w
  induction w with
  | nil =>
    intro teams used free ht hw hf
    simp only [process_waitlist_loop]
    exact ⟨by omega, by omega, le_refl _, ht, hw⟩
  | cons p rest ih =>
    obtain ⟨n, s⟩ := p
    intro teams used free ht hw hf
    have hs : 0 ≤ s := hw (n, s) (List.mem_cons_self _ _)
    have hwrest : WlOK rest := fun q hq => hw q (List.mem_cons_of_mem _ hq)
    have hgd : 0 ≤ getD teams n := getD_nonneg ht n
    simp only [process_waitlist_loop]
    split
    · dsimp only
      exact ⟨by omega, by omega, le_refl _, ht, hw⟩
    · rename_i h0
      split
      · rename_i hsle
        have ht' : TeamsOK (setKey teams n (getD teams n + s)) :=
          teamsOK_setKey ht (by omega) n
        obtain ⟨e1, e2, e3, e4, e5⟩ :=
          ih (setKey teams n (getD teams n + s)) (used + s) (free - s) ht' hwrest (by omega)
        rw [rosterSum_setKey] at e1
        exact ⟨by omega, by omega, by omega, e4, e5⟩
      · rename_i hsgt
        have hfree : 0 < free := by omega
        dsimp only
        refine ⟨?_, by omega, by omega, teamsOK_setKey ht (by omega) n, ?_⟩
        · rw [rosterSum_setKey]; omega
        · intro q hq
          rcases List.mem_cons.mp hq with h' | h'
          · simp [h']; omega
          · exact hwrest q h'

/-- The same accounting facts for the background sweep loop. -/
theorem sweep_loop_inv :
    ∀ (w : Waitlist) (teams : Roster) (used avail : Int),
      TeamsOK teams → WlOK w → 0 ≤ avail →
      rosterSum (sweep_loop teams used w avail).1 =
        rosterSum teams + ((sweep_loop teams used w avail).2.1 - used) ∧
      (sweep_loop teams used w avail).2.1 ≤ used + avail ∧
      used ≤ (sweep_loop teams used w avail).2.1 ∧
      TeamsOK (sweep_loop teams used w avail).1 ∧
      WlOK (sweep_loop teams used w avail).2.2 := by
  intro w
  induction w with
  | nil =>
    intro teams used avail ht hw hf
    simp only [sweep_loop]
    exact ⟨by omega, by omega, le_refl _, ht, hw⟩
  | cons p rest ih =>
    obtain ⟨n, s⟩ := p
    intro teams used avail ht hw hf
    have hs : 0 ≤ s := hw (n, s) (List.mem_cons_self _ _)
    have hwrest : WlOK rest := fun q hq => hw q (List.mem_cons_of_mem _ hq)
    have hgd : 0 ≤ getD teams n := getD_nonneg ht n
    simp only [sweep_loop]
    split
    · dsimp only
      exact ⟨by omega, by omega, le_refl _, ht, hw⟩
    · rename_i h0
      split
      · rename_i hsle
        have ht' : TeamsOK (setKey teams n (getD teams n + s)) :=
          teamsOK_setKey ht (by omega) n
        obtain ⟨e1, e2, e3, e4, e5⟩ :=
          ih (setKey teams n (getD teams n + s)) (used + s) (avail - s) ht' hwrest (by omega)
        rw [rosterSum_setKey] at e1
        exact ⟨by omega, by omega, by omega, e4, e5⟩
      · dsimp only
        exact ⟨by omega, by omega, le_refl _, ht, hw⟩

theorem lowChar_idem (c : Char) : lowChar (lowChar c) = lowChar c := by
  by_cases h : 'A' ≤ c ∧ c ≤ 'Z'
  · have h65 : 65 ≤ c.toNat := by rw [Char.le_def] at h; exact h.1
    have h90 : c.toNat ≤ 90 := by rw [Char.le_def] at h; exact h.2
    have hv : (c.toNat + 32).isValidChar := by left; omega
    have ht : (Char.ofNat (c.toNat + 32)).toNat = c.toNat + 32 := by
      have hv' : (c.val.toNat + 32).isValidChar := hv
      simp only [Char.ofNat, Char.toNat]
      rw [dif_pos hv']
      rfl
    unfold lowChar
    simp only [h, if_true]
    rw [if_neg]
    intro hcon
    have c2 : (Char.ofNat (c.toNat + 32)).toNat ≤ 90 := hcon.2
    rw [ht] at c2
    omega
  · unfold lowChar
    simp [h]

theorem low_low (s : String) : low (low s) = low s := by
  unfold low
  simp only [List.map_map]
  congr 1
  apply List.map_congr_left
  intro a _
  exact lowChar_idem a

theorem getD_of_findCI_none {l : Roster} {t : String} (h : findCI l t = none)
    (hl : low t = t) : getD l t = 0 := by
  induction l with
  | nil => simp [getD]
  | cons p rest ih =>
    obtain ⟨n, s⟩ := p
    simp only [findCI] at h
    split at h
    · exact absurd h (by simp)
    · rename_i hne
      have hnt : n ≠ t := by
        intro hEq
        rw [hEq] at hne
        exact hne hl
      simp only [getD, hnt, if_false]
      exact ih h

/-- Appending a fresh entry whose key is already lowercase is found by the
case-insensitive scan exactly when nothing earlier matches. -/
theorem findCI_append_self {l : Roster} {t : String} (h : findCI l t = none)
    (hl : low t = t) (v : Int) : findCI (l ++ [(t, v)]) t = some (t, v) := by
  induction l with
  | nil => simp [findCI, hl]
  | cons p rest ih =>
    obtain ⟨n, s⟩ := p
    simp only [findCI] at h ⊢
    split at h
    · exact absurd h (by simp)
    · rename_i hne
      rw [if_neg hne]
      exact ih h

/-! ## The inductive reachable-state invariant -/

/-- Event-level invariant: `slots_used` equals the roster sum and respects
capacity, capacity never exceeds the configured default, and all stored
sizes are non-negative. -/
def EvInv (D : Int) (e : Event) : Prop :=
  e.slots_used = rosterSum e.teams ∧ e.slots_used ≤ e.max_slots ∧ e.max_slots ≤ D ∧
  TeamsOK e.teams ∧ WlOK e.waitlist

/-- State-level invariant (vacuous when no event is active). -/
def StInv (D : Int) (st : St) : Prop := ∀ e, st.ev = some e → EvInv D e

theorem pwac_EvInv {D : Int} {ev : Event} {free : Int} (h : EvInv D ev) (hf : 0 ≤ free)
    (hcap : ev.slots_used + free ≤ ev.max_slots) :
    EvInv D (process_waitlist_after_change ev free) := by
  obtain ⟨h1, h2, h3, h4, h5⟩ := h
  unfold process_waitlist_after_change
  split
  · exact ⟨h1, h2, h3, h4, h5⟩
  · obtain ⟨e1, e2, e3, e4, e5⟩ :=
      process_waitlist_loop_inv ev.waitlist ev.teams ev.slots_used free h4 h5 hf
    exact ⟨by dsimp only; omega, by dsimp only; omega, h3, e4, e5⟩

theorem findCI_of_eventSizeOf_pos {l : Roster} {t : String} (h : 0 < eventSizeOf l t) :
    ∃ r, findCI l t = some (r, eventSizeOf l t) := by
  cases hf : findCI l t with
  | none => rw [eventSizeOf_of_findCI_none hf] at h; omega
  | some p =>
    obtain ⟨r, s⟩ := p
    have hes : eventSizeOf l t = s := eventSizeOf_eq_of_findCI hf
    exact ⟨r, by rw [hes]⟩

theorem wlFirst_isSome_of_pos {w : Waitlist} {t : String} (h : 0 < wlSizeOf w t) :
    ∃ q, wlFirst w t = some q := by
  induction w with
  | nil => simp [wlSizeOf] at h
  | cons p rest ih =>
    obtain ⟨n, s⟩ := p
    by_cases hc : low n = t
    · exact ⟨(0, n, s), by simp [wlFirst, hc]⟩
    · have hsz : wlSizeOf ((n, s) :: rest) t = wlSizeOf rest t := by
        simp [wlSizeOf, List.filter, hc]
      rw [hsz] at h
      obtain ⟨q, hq⟩ := ih h
      exact ⟨(q.1 + 1, q.2), by simp [wlFirst, hc, hq]⟩

theorem uts_cancel_EvInv {D : Int} {ev : Event} (h : EvInv D ev) (team : String) :
    EvInv D (uts_cancel ev team) := by
  obtain ⟨h1, h2, h3, h4, h5⟩ := h
  unfold uts_cancel
  by_cases he : eventSizeOf ev.teams team > 0
  · obtain ⟨r, hfind⟩ := findCI_of_eventSizeOf_pos he
    obtain ⟨hl, hgd, hmem⟩ := findCI_spec hfind
    have hgn : 0 ≤ getD ev.teams r := getD_nonneg h4 r
    simp only [he, if_true, hfind]
    apply pwac_EvInv
    · refine ⟨?_, ?_, h3, teamsOK_popKey h4 r, ?_⟩
      · dsimp only
        rw [rosterSum_popKey]
        omega
      · dsimp only
        omega
      · dsimp only
        split
        · exact wlOK_filter h5 _
        · exact h5
    · omega
    · dsimp only
      omega
  · simp only [he, if_false]
    refine ⟨h1, h2, h3, h4, ?_⟩
    dsimp only
    split
    · exact wlOK_filter h5 _
    · exact h5

theorem uts_increase_EvInv {D : Int} {ev : Event} {team : String} {d : Int}
    (h : EvInv D ev) (hd : 0 < d) (hlow : low team = team) :
    EvInv D (uts_increase ev team d) := by
  obtain ⟨h1, h2, h3, h4, h5⟩ := h
  have havail : 0 ≤ ev.max_slots - ev.slots_used := by omega
  have hws : 0 ≤ wlSizeOf ev.waitlist team := wlSizeOf_nonneg h5 team
  unfold uts_increase
  dsimp only
  split
  · rename_i hle
    cases hreg : findCI ev.teams team with
    | some rp =>
      obtain ⟨r, s⟩ := rp
      obtain ⟨rl, rgd, rmem⟩ := findCI_spec hreg
      have hgn : 0 ≤ getD ev.teams r := getD_nonneg h4 r
      simp only [hreg]
      refine ⟨?_, ?_, h3, teamsOK_setKey h4 (by omega) r, h5⟩
      · dsimp only
        rw [rosterSum_setKey]
        omega
      · dsimp only
        omega
    | none =>
      have hz : getD ev.teams team = 0 := getD_of_findCI_none hreg hlow
      simp only [hreg]
      refine ⟨?_, ?_, h3, teamsOK_setKey h4 (by omega) team, h5⟩
      · dsimp only
        rw [rosterSum_setKey]
        omega
      · dsimp only
        omega
  · rename_i hgt
    have hteams : ∀ l : Roster, l = (match findCI ev.teams team with
        | some rp => setKey ev.teams rp.1 (getD ev.teams rp.1 + (ev.max_slots - ev.slots_used))
        | none => setKey ev.teams team (ev.max_slots - ev.slots_used)) →
        rosterSum l = rosterSum ev.teams + (ev.max_slots - ev.slots_used) ∧ TeamsOK l := by
      intro l hl
      cases hreg : findCI ev.teams team with
      | some rp =>
        obtain ⟨r, s⟩ := rp
        obtain ⟨rl, rgd, rmem⟩ := findCI_spec hreg
        have hgn : 0 ≤ getD ev.teams r := getD_nonneg h4 r
        have rgd' : getD ev.teams (r, s).1 = s := rgd
        have hgn' : 0 ≤ getD ev.teams (r, s).1 := hgn
        rw [hreg] at hl
        subst hl
        constructor
        · rw [rosterSum_setKey]; omega
        · exact teamsOK_setKey h4 (by omega) (r, s).1
      | none =>
        have hz : getD ev.teams team = 0 := getD_of_findCI_none hreg hlow
        rw [hreg] at hl
        subst hl
        constructor
        · rw [rosterSum_setKey]; omega
        · exact teamsOK_setKey h4 (by omega) team
    obtain ⟨hsum, hok⟩ := hteams _ rfl
    have hwl : WlOK (match wlFirst ev.waitlist team with
        | some q => ev.waitlist.set q.1
            (q.2.1, wlSizeOf ev.waitlist team + (d - (ev.max_slots - ev.slots_used)))
        | none => ev.waitlist ++ [(team, d - (ev.max_slots - ev.slots_used))]) := by
      cases hwf : wlFirst ev.waitlist team with
      | some q => exact wlOK_set h5 (by omega) q.1
      | none => exact wlOK_append h5 (by omega)
    exact ⟨by dsimp only; omega, by dsimp only; omega, h3, hok, hwl⟩

theorem eventSizeOf_nonneg {l : Roster} (h : TeamsOK l) (t : String) :
    0 ≤ eventSizeOf l t := by
  cases hf : findCI l t with
  | none => rw [eventSizeOf_of_findCI_none hf]
  | some p =>
    obtain ⟨r, s⟩ := p
    rw [eventSizeOf_eq_of_findCI hf]
    obtain ⟨_, _, hm⟩ := findCI_spec hf
    exact h _ hm

theorem uts_decrease_EvInv {D : Int} {ev : Event} {team : String} {red : Int}
    (h : EvInv D ev) (hr : 0 < red)
    (hlt : red < eventSizeOf ev.teams team + wlSizeOf ev.waitlist team) :
    EvInv D (uts_decrease ev team red) := by
  obtain ⟨h1, h2, h3, h4, h5⟩ := h
  have hws : 0 ≤ wlSizeOf ev.waitlist team := wlSizeOf_nonneg h5 team
  have hes0 : 0 ≤ eventSizeOf ev.teams team := eventSizeOf_nonneg h4 team
  have hwl : WlOK (if min (wlSizeOf ev.waitlist team) red > 0 then
      match wlFirst ev.waitlist team with
      | some q =>
        if wlSizeOf ev.waitlist team - min (wlSizeOf ev.waitlist team) red > 0 then
          ev.waitlist.set q.1
            (q.2.1, wlSizeOf ev.waitlist team - min (wlSizeOf ev.waitlist team) red)
        else ev.waitlist.eraseIdx q.1
      | none => ev.waitlist
    else ev.waitlist) := by
    split
    · split
      · rename_i q hq
        split
        · rename_i hpos2
          refine wlOK_set h5 ?_ q.1
          omega
        · exact wlOK_eraseIdx h5 q.1
      · exact h5
    · exact h5
  unfold uts_decrease
  dsimp only
  by_cases hc3 : red - min (wlSizeOf ev.waitlist team) red > 0
  · have hmin : min (wlSizeOf ev.waitlist team) red = wlSizeOf ev.waitlist team := by omega
    have hespos : 0 < eventSizeOf ev.teams team := by omega
    obtain ⟨r, hfind⟩ := findCI_of_eventSizeOf_pos hespos
    obtain ⟨rl, rgd, rmem⟩ := findCI_spec hfind
    have hc4 : eventSizeOf ev.teams team - (red - min (wlSizeOf ev.waitlist team) red) > 0 := by
      omega
    rw [if_pos hc3, if_pos hc3, hfind]
    dsimp only
    rw [if_pos hc4]
    apply pwac_EvInv
    · refine ⟨?_, ?_, h3, teamsOK_setKey h4 (by omega) r, hwl⟩
      · dsimp only
        rw [rosterSum_setKey]
        omega
      · dsimp only
        omega
    · omega
    · dsimp only
      omega
  · rw [if_neg hc3, if_neg hc3]
    exact ⟨h1, h2, h3, h4, hwl⟩

theorem update_team_size_StInv {D : Int} {st : St} (h : StInv D st)
    (uid rawName : String) (n : Int) (adm rep : Bool) :
    StInv D (update_team_size st uid rawName n adm rep) := by
  unfold update_team_size
  split
  · exact h
  · cases hev : st.ev with
    | none => simp only [hev]; exact h
    | some ev =>
      have hinv : EvInv D ev := h ev hev
      simp only [hev]
      split
      · exact h
      · split
        · exact h
        · split
          · exact h
          · split
            · exact h
            · rename_i hrep hauth hn0 hmax
              split
              · intro e heq
                injection heq with he
                subst he
                exact uts_cancel_EvInv hinv _
              · split
                · intro e heq
                  injection heq with he
                  subst he
                  exact hinv
                · split
                  · rename_i hz hpos
                    intro e heq
                    injection heq with he
                    subst he
                    exact uts_increase_EvInv hinv hpos (low_low _)
                  · rename_i hne0 hz hpos
                    intro e heq
                    injection heq with he
                    subst he
                    apply uts_decrease_EvInv hinv
                    · omega
                    · omega

theorem no_key_of_not_any {l : Roster} {k : String}
    (h : ¬ l.any (fun p => p.1 = k) = true) : ∀ p ∈ l, p.1 ≠ k := by
  intro p hp hEq
  apply h
  rw [List.any_eq_true]
  exact ⟨p, hp, by simp [hEq]⟩

theorem admin_add_team_StInv {D : Int} {st : St} (h : StInv D st)
    (uid? : Option String) (name : String) (n : Int) (fw : Bool) :
    StInv D (admin_add_team st uid? name n fw) := by
  unfold admin_add_team
  cases hev : st.ev with
  | none => simp only [hev]; exact h
  | some ev =>
    obtain ⟨h1, h2, h3, h4, h5⟩ := h ev hev
    simp only [hev]
    split
    · exact h
    · split
      · exact h
      · split
        · exact h
        · rename_i hdup hwdup hsz
          have hnkey : ∀ p ∈ ev.teams, p.1 ≠ name := no_key_of_not_any hdup
          have hkey0 : getD ev.teams name = 0 := getD_of_no_key hnkey
          have hsz' : 0 < n ∧ n ≤ ev.max_team_size := by
            rcases not_or.mp hsz with ⟨a, b⟩
            constructor <;> omega
          split
          · intro e heq
            injection heq with he
            subst he
            exact ⟨h1, h2, h3, h4, wlOK_append h5 (by omega)⟩
          · split
            · rename_i hfits
              intro e heq
              injection heq with he
              subst he
              refine ⟨?_, ?_, h3, teamsOK_setKey h4 (by omega) name, h5⟩
              · dsimp only
                rw [rosterSum_setKey]
                omega
              · dsimp only
                omega
            · split
              · rename_i hnofit hsome
                intro e heq
                injection heq with he
                subst he
                refine ⟨?_, ?_, h3, teamsOK_setKey h4 (by omega) name,
                  wlOK_append h5 (by omega)⟩
                · dsimp only
                  rw [rosterSum_setKey]
                  omega
                · dsimp only
                  omega
              · intro e heq
                injection heq with he
                subst he
                exact ⟨h1, h2, h3, h4, wlOK_append h5 (by omega)⟩

theorem close_registration_EvInv {D : Int} {ev : Event} (h : EvInv D ev) :
    EvInv D (close_registration ev) := by
  obtain ⟨h1, h2, h3, h4, h5⟩ := h
  exact ⟨h1, by simp [close_registration], by simp [close_registration]; omega, h4, h5⟩

theorem open_registration_EvInv {D : Int} {ev : Event} (h : EvInv D ev) :
    EvInv D (open_registration ev D) := by
  obtain ⟨h1, h2, h3, h4, h5⟩ := h
  unfold open_registration
  dsimp only
  split
  · rename_i hgt
    apply pwac_EvInv
    · exact ⟨h1, by dsimp only; omega, by dsimp only; omega, h4, h5⟩
    · omega
    · dsimp only
      omega
  · exact ⟨h1, by dsimp only; omega, by dsimp only; omega, h4, h5⟩

theorem check_waitlist_and_expiry_StInv {D : Int} {st : St} (h : StInv D st) (now : Int) :
    StInv D (check_waitlist_and_expiry st now) := by
  unfold check_waitlist_and_expiry
  cases hev : st.ev with
  | none => simp only [hev]; exact h
  | some ev =>
    obtain ⟨h1, h2, h3, h4, h5⟩ := h ev hev
    simp only [hev]
    split
    · intro e heq
      simp at heq
    · split
      · rename_i hroom
        intro e heq
        injection heq with he
        subst he
        obtain ⟨e1, e2, e3, e4, e5⟩ := sweep_loop_inv ev.waitlist ev.teams ev.slots_used
          (ev.max_slots - ev.slots_used) h4 h5 (by omega)
        exact ⟨by dsimp only; omega, by dsimp only; omega, h3, e4, e5⟩
      · exact h

theorem step_StInv {D : Int} {s t : St} (hs : StInv D s) (h : Step D s t) : StInv D t := by
  cases h with
  | set_team_size uid name n adm rep => exact update_team_size_StInv hs uid name n adm rep
  | add_team uid? name n fw => exact admin_add_team_StInv hs uid? name n fw
  | close ev hev =>
    intro e heq
    injection heq with he
    subst he
    exact close_registration_EvInv (hs ev hev)
  | open_reg ev hev =>
    intro e heq
    injection heq with he
    subst he
    exact open_registration_EvInv (hs ev hev)
  | promote ev free hev hf hcap =>
    intro e heq
    injection heq with he
    subst he
    exact pwac_EvInv (hs ev hev) hf hcap
  | sweep now => exact check_waitlist_and_expiry_StInv hs now

theorem reachable_StInv {D M x : Int} {A0 : Assignments} {st : St} (hD : 0 ≤ D)
    (h : Reachable D M x A0 st) : StInv D st := by
  unfold Reachable at h
  induction h with
  | refl =>
    intro e heq
    injection heq with he
    subst he
    refine ⟨?_, ?_, ?_, ?_, ?_⟩ <;>
      simp [create_event, rosterSum, TeamsOK, WlOK, hD]
  | tail hab hbc ih => exact step_StInv ih hbc

/-- Claim C1: in every state reachable from event creation by any sequence of
`set_team_size` (register/edit/cancel), admin team addition, waitlist
promotion, close-registration, open-registration and the background sweep,
`slots_used` equals the sum of all roster team sizes and
`0 ≤ slots_used ≤ max_slots`. -/
theorem C1_slots_used_invariant {D M x : Int} {A0 : Assignments} {st : St} {e : Event}
    (hD : 0 ≤ D) (h : Reachable D M x A0 st) (hev : st.ev = some e) :
    e.slots_used = rosterSum e.teams ∧ 0 ≤ e.slots_used ∧ e.slots_used ≤ e.max_slots := by
  obtain ⟨h1, h2, h3, h4, h5⟩ := reachable_StInv hD h e hev
  exact ⟨h1, by rw [h1]; exact rosterSum_nonneg h4, h2⟩

theorem C1_witness :
    (5 : Int) = rosterSum [("alpha", 5)] ∧ (0 : Int) ≤ 5 ∧ (5 : Int) ≤ 20 := by
  have h :=
    @C1_slots_used_invariant 20 6 50 []
      (update_team_size { ev := some (create_event 20 6 50), assigns := [] } "u1" "Alpha" 5 false true)
      { max_slots := 20, slots_used := 5, max_team_size := 6, teams := [("alpha", 5)], waitlist := [], expiry_date := 50 }
      (by norm_num)
      (Relation.ReflTransGen.tail Relation.ReflTransGen.refl
        (Step.set_team_size _ "u1" "Alpha" 5 false true))
      (by decide)
  exact h

theorem getD_setKey_ne {l : Roster} {k m : String} (h : m ≠ k) (v : Int) :
    getD (setKey l k v) m = getD l m := by
  have hkm : k ≠ m := fun hEq => h hEq.symm
  induction l with
  | nil => simp [setKey, getD, hkm]
  | cons p rest ih =>
    obtain ⟨n, s⟩ := p
    simp only [setKey]
    split
    · rename_i hnk
      subst hnk
      simp only [getD]
      rw [if_neg hkm, if_neg hkm]
    · simp only [getD]
      split
      · rfl
      · exact ih

/-- Claim C2: the waitlist promoter serves entries strictly from index 0.  With
capacity left, a head that fits is popped whole, its size credited to its
roster entry and to `slots_used`, and the loop continues; a head larger than
the remaining capacity is decremented in place by that capacity, exactly that
many members join its roster entry, every other team's roster entry is left
untouched, and promotion stops.  Concretely, `[("A",5),("B",3)]` with 4 freed
slots promotes A partially by 4 (waitlist `[("A",1),("B",3)]`) and B — though
already holding a roster entry — gains nothing. -/
theorem C2_fifo_promotion (teams : Roster) (used free s : Int) (n : String) (rest : Waitlist)
    (hfree : 0 < free) :
    (s ≤ free →
      process_waitlist_loop teams used ((n, s) :: rest) free =
        process_waitlist_loop (setKey teams n (getD teams n + s)) (used + s) rest (free - s)) ∧
    (free < s →
      process_waitlist_loop teams used ((n, s) :: rest) free =
        (setKey teams n (getD teams n + free), used + free, (n, s - free) :: rest)) ∧
    (free < s → ∀ m, m ≠ n →
      getD (process_waitlist_loop teams used ((n, s) :: rest) free).1 m = getD teams m) ∧
    process_waitlist_loop [("B", 7)] 0 [("A", 5), ("B", 3)] 4 =
      ([("B", 7), ("A", 4)], 4, [("A", 1), ("B", 3)]) := by
  refine ⟨?_, ?_, ?_, by decide⟩
  · intro hle
    rw [process_waitlist_loop, if_neg (by omega), if_pos hle]
  · intro hgt
    rw [process_waitlist_loop, if_neg (by omega), if_neg (by omega)]
  · intro hgt m hm
    rw [process_waitlist_loop, if_neg (by omega), if_neg (by omega)]
    exact getD_setKey_ne hm _

theorem C2_witness :
    ((1 : Int) ≤ 1 →
      process_waitlist_loop [] 0 [("A", 1)] 1 =
        process_waitlist_loop (setKey [] "A" (getD [] "A" + 1)) (0 + 1) [] (1 - 1)) ∧
    ((1 : Int) < 1 →
      process_waitlist_loop [] 0 [("A", 1)] 1 =
        (setKey [] "A" (getD [] "A" + 1), 0 + 1, ("A", 1 - 1) :: [])) ∧
    ((1 : Int) < 1 → ∀ m, m ≠ "A" →
      getD (process_waitlist_loop [] 0 [("A", 1)] 1).1 m = getD [] m) ∧
    process_waitlist_loop [("B", 7)] 0 [("A", 5), ("B", 3)] 4 =
      ([("B", 7), ("A", 4)], 4, [("A", 1), ("B", 3)]) :=
  C2_fifo_promotion [] 0 1 1 "A" [] (by norm_num)

/-- Branch reduction: a strictly increasing admin request lands in the
increase branch of `update_team_size`. -/
theorem update_team_size_increase_eq (ev : Event) (A : Assignments) (uid rawName : String)
    (nsz : Int) (hname : ¬ strip rawName = "") (hnn : 0 < nsz)
    (hpos : eventSizeOf ev.teams (low (strip rawName)) +
        wlSizeOf ev.waitlist (low (strip rawName)) < nsz) :
    update_team_size { ev := some ev, assigns := A } uid rawName nsz true false =
      { ev := some (uts_increase ev (low (strip rawName))
          (nsz - (eventSizeOf ev.teams (low (strip rawName)) +
            wlSizeOf ev.waitlist (low (strip rawName))))),
        assigns := if eventSizeOf ev.teams (low (strip rawName)) +
            wlSizeOf ev.waitlist (low (strip rawName)) = 0 ∧ nsz > 0 then
          setA A uid (low (strip rawName)) else A } := by
  unfold update_team_size
  rw [if_neg hname]
  dsimp only
  rw [if_neg (by simp), if_neg (by simp), if_neg (by omega), if_neg (by simp),
    if_neg (by omega), if_neg (by omega), if_pos (by omega)]

/-- Branch reduction: a strictly decreasing (but not cancelling) admin
request lands in the decrease branch of `update_team_size`. -/
theorem update_team_size_decrease_eq (ev : Event) (A : Assignments) (uid rawName : String)
    (nsz : Int) (hname : ¬ strip rawName = "") (hnn : 0 < nsz)
    (hlt : nsz < eventSizeOf ev.teams (low (strip rawName)) +
        wlSizeOf ev.waitlist (low (strip rawName))) :
    update_team_size { ev := some ev, assigns := A } uid rawName nsz true false =
      { ev := some (uts_decrease ev (low (strip rawName))
          (-(nsz - (eventSizeOf ev.teams (low (strip rawName)) +
            wlSizeOf ev.waitlist (low (strip rawName)))))),
        assigns := A } := by
  unfold update_team_size
  rw [if_neg hname]
  dsimp only
  rw [if_neg (by simp), if_neg (by simp), if_neg (by omega), if_neg (by simp),
    if_neg (by omega), if_neg (by omega), if_neg (by omega), if_neg (by omega)]

/-- Branch reduction: a request for size 0 lands in the cancellation branch
of `update_team_size`. -/
theorem update_team_size_cancel_eq (ev : Event) (A : Assignments) (uid rawName : String)
    (hname : ¬ strip rawName = "") :
    update_team_size { ev := some ev, assigns := A } uid rawName 0 true false =
      { ev := some (uts_cancel ev (low (strip rawName))),
        assigns := A.filter (fun p => ¬ low p.2 = low (strip rawName)) } := by
  unfold update_team_size
  rw [if_neg hname]
  dsimp only
  rw [if_neg (by simp), if_neg (by simp), if_neg (by omega), if_neg (by simp),
    if_pos rfl, if_neg (by simp)]

theorem uts_increase_split (ev : Event) (t : String) (d : Int) (hd : 0 < d)
    (hlow : low t = t) (hinv : 0 ≤ ev.max_slots - ev.slots_used) :
    (uts_increase ev t d).slots_used =
      ev.slots_used + min d (ev.max_slots - ev.slots_used) ∧
    rosterSum (uts_increase ev t d).teams =
      rosterSum ev.teams + min d (ev.max_slots - ev.slots_used) ∧
    (uts_increase ev t d).max_slots = ev.max_slots ∧
    (findCI ev.teams t = none →
      (uts_increase ev t d).teams =
        setKey ev.teams t (min d (ev.max_slots - ev.slots_used))) ∧
    (wlFirst ev.waitlist t = none →
      (uts_increase ev t d).waitlist =
        if d - min d (ev.max_slots - ev.slots_used) = 0 then ev.waitlist
        else ev.waitlist ++ [(t, d - min d (ev.max_slots - ev.slots_used))]) := by
  unfold uts_increase
  dsimp only
  split
  · rename_i hle
    have hmin : min d (ev.max_slots - ev.slots_used) = d := by omega
    rw [hmin]
    refine ⟨rfl, ?_, rfl, ?_, ?_⟩
    · dsimp only
      cases hreg : findCI ev.teams t with
      | some rp =>
        obtain ⟨r, s⟩ := rp
        obtain ⟨rl, rgd, rmem⟩ := findCI_spec hreg
        have rgd' : getD ev.teams (r, s).1 = s := rgd
        dsimp only
        rw [rosterSum_setKey]
        omega
      | none =>
        dsimp only
        rw [rosterSum_setKey, getD_of_findCI_none hreg hlow]
        omega
    · intro hnone
      dsimp only
      rw [hnone]
    · intro hwnone
      dsimp only
      rw [if_pos (by omega)]
  · rename_i hgt
    have hmin : min d (ev.max_slots - ev.slots_used) = ev.max_slots - ev.slots_used := by
      omega
    rw [hmin]
    refine ⟨rfl, ?_, rfl, ?_, ?_⟩
    · dsimp only
      cases hreg : findCI ev.teams t with
      | some rp =>
        obtain ⟨r, s⟩ := rp
        obtain ⟨rl, rgd, rmem⟩ := findCI_spec hreg
        have rgd' : getD ev.teams (r, s).1 = s := rgd
        dsimp only
        rw [rosterSum_setKey]
        omega
      | none =>
        dsimp only
        rw [rosterSum_setKey, getD_of_findCI_none hreg hlow]
        omega
    · intro hnone
      dsimp only
      rw [hnone]
    · intro hwnone
      dsimp only
      rw [hwnone, if_neg (by omega)]

/-- Claim C3, amended: for a request that raises team T's total size by
`dlt > 0`, exactly `m = min dlt (max_slots - slots_used)` members are added
to T's roster entry (created when absent) and to `slots_used`, and the
remaining `w = dlt - m` members go to the waitlist; when T has no existing
waitlist entry the new entry is the 2-tuple `(t, w)` appended at the end,
where `t` is the lower-cased team name — the implementation stores neither
the original casing nor an id.  (The claim's entry `("Alpha", 3, id)` for
the `max_slots = 20`, `slots_used = 18` scenario is refuted by
the counterexample; the split counts themselves hold.) -/
theorem C3_admission_split (ev : Event) (A : Assignments) (uid rawName : String)
    (nsz dlt m w : Int) (hname : ¬ strip rawName = "")
    (hTok : TeamsOK ev.teams) (hWok : WlOK ev.waitlist)
    (hinv : 0 ≤ ev.max_slots - ev.slots_used)
    (hdlt : dlt = nsz - (eventSizeOf ev.teams (low (strip rawName)) +
      wlSizeOf ev.waitlist (low (strip rawName))))
    (hpos : 0 < dlt)
    (hm : m = min dlt (ev.max_slots - ev.slots_used))
    (hw : w = dlt - m) :
    ∃ e, (update_team_size { ev := some ev, assigns := A } uid rawName nsz true false).ev
        = some e ∧
      e.slots_used = ev.slots_used + m ∧
      rosterSum e.teams = rosterSum ev.teams + m ∧
      e.max_slots = ev.max_slots ∧
      (findCI ev.teams (low (strip rawName)) = none →
        e.teams = setKey ev.teams (low (strip rawName)) m) ∧
      (wlFirst ev.waitlist (low (strip rawName)) = none →
        e.waitlist = if w = 0 then ev.waitlist
          else ev.waitlist ++ [(low (strip rawName), w)]) := by
  have hes : 0 ≤ eventSizeOf ev.teams (low (strip rawName)) := eventSizeOf_nonneg hTok _
  have hws : 0 ≤ wlSizeOf ev.waitlist (low (strip rawName)) := wlSizeOf_nonneg hWok _
  have hnn : 0 < nsz := by omega
  have hlt : eventSizeOf ev.teams (low (strip rawName)) +
      wlSizeOf ev.waitlist (low (strip rawName)) < nsz := by omega
  rw [update_team_size_increase_eq ev A uid rawName nsz hname hnn hlt]
  obtain ⟨e1, e2, e3, e4, e5⟩ := uts_increase_split ev (low (strip rawName))
    (nsz - (eventSizeOf ev.teams (low (strip rawName)) +
      wlSizeOf ev.waitlist (low (strip rawName)))) (by omega) (low_low _) hinv
  refine ⟨_, rfl, ?_, ?_, ?_, ?_, ?_⟩
  · rw [e1]; omega
  · rw [e2]; omega
  · exact e3
  · intro hnone
    rw [e4 hnone]
    have hme : m = min (nsz - (eventSizeOf ev.teams (low (strip rawName)) +
        wlSizeOf ev.waitlist (low (strip rawName)))) (ev.max_slots - ev.slots_used) := by
      omega
    rw [hme]
  · intro hwnone
    have hwe : w = nsz - (eventSizeOf ev.teams (low (strip rawName)) +
        wlSizeOf ev.waitlist (low (strip rawName))) -
      min (nsz - (eventSizeOf ev.teams (low (strip rawName)) +
        wlSizeOf ev.waitlist (low (strip rawName)))) (ev.max_slots - ev.slots_used) := by
      omega
    rw [hwe]
    exact e5 hwnone

theorem C3_witness :
    ∃ e, (update_team_size { ev := some { max_slots := 20, slots_used := 18, max_team_size := 6, teams := [("gamma", 18)], waitlist := [], expiry_date := 100 }, assigns := [] } "u1" "Alpha" 5 true false).ev = some e ∧
      e.slots_used = 18 + 2 ∧
      rosterSum e.teams = rosterSum [("gamma", 18)] + 2 ∧
      e.max_slots = 20 ∧
      (findCI [("gamma", 18)] (low (strip "Alpha")) = none →
        e.teams = setKey [("gamma", 18)] (low (strip "Alpha")) 2) ∧
      (wlFirst [] (low (strip "Alpha")) = none →
        e.waitlist = if (3 : Int) = 0 then [] else [] ++ [(low (strip "Alpha"), 3)]) := by
  have h := C3_admission_split
    { max_slots := 20, slots_used := 18, max_team_size := 6, teams := [("gamma", 18)], waitlist := [], expiry_date := 100 }
    [] "u1" "Alpha" 5 5 2 3 (by decide) (by unfold TeamsOK; decide) (by unfold WlOK; decide)
    (by decide) (by decide) (by decide) (by decide) (by decide)
  exact h

/-- Claim C3, counterexample: in the claim's own scenario (`max_slots = 20`,
`slots_used = 18`, new team `"Alpha"` of size 5) the three overflow members
are stored as the single 2-tuple `("alpha", 3)` — the lower-cased name with
no id component — so no waitlist entry named `"Alpha"` (let alone a 3-tuple
`("Alpha", 3, id)`) exists in the result. -/
theorem C3_counterexample :
    (update_team_size { ev := some { max_slots := 20, slots_used := 18, max_team_size := 6, teams := [("gamma", 18)], waitlist := [], expiry_date := 100 }, assigns := [] } "u1" "Alpha" 5 false true).ev =
      some { max_slots := 20, slots_used := 20, max_team_size := 6, teams := [("gamma", 18), ("alpha", 2)], waitlist := [("alpha", 3)], expiry_date := 100 } ∧
    (∀ p ∈ [("alpha", 3)], p.1 ≠ "Alpha") := by
  constructor
  · decide
  · decide

theorem uts_increase_wl (ev : Event) (t : String) (d : Int)
    (hgt : ¬ d ≤ ev.max_slots - ev.slots_used) :
    (uts_increase ev t d).waitlist =
      match wlFirst ev.waitlist t with
      | some q => ev.waitlist.set q.1
          (q.2.1, wlSizeOf ev.waitlist t + (d - (ev.max_slots - ev.slots_used)))
      | none => ev.waitlist ++ [(t, d - (ev.max_slots - ev.slots_used))] := by
  unfold uts_increase
  dsimp only
  rw [if_neg hgt]

/-- Claim C6, amended: when an increase sends `w > 0` members to the waitlist
and team T already has a waitlist entry, no new entry is appended — the first
existing entry is overwritten in place with size
`wlSizeOf(T) + w` (so the waitlist length is unchanged); only when T has no
waitlist entry is a fresh 2-tuple `(t, w)` appended at the end. -/
theorem C6_waitlist_merge (ev : Event) (A : Assignments) (uid rawName : String)
    (nsz dlt m w : Int) (hname : ¬ strip rawName = "")
    (hTok : TeamsOK ev.teams) (hWok : WlOK ev.waitlist)
    (hinv : 0 ≤ ev.max_slots - ev.slots_used)
    (hdlt : dlt = nsz - (eventSizeOf ev.teams (low (strip rawName)) +
      wlSizeOf ev.waitlist (low (strip rawName))))
    (hpos : 0 < dlt)
    (hm : m = min dlt (ev.max_slots - ev.slots_used))
    (hw : w = dlt - m) (hwpos : 0 < w) :
    ∃ e, (update_team_size { ev := some ev, assigns := A } uid rawName nsz true false).ev
        = some e ∧
      (∀ q, wlFirst ev.waitlist (low (strip rawName)) = some q →
        e.waitlist = ev.waitlist.set q.1
            (q.2.1, wlSizeOf ev.waitlist (low (strip rawName)) + w) ∧
          e.waitlist.length = ev.waitlist.length) ∧
      (wlFirst ev.waitlist (low (strip rawName)) = none →
        e.waitlist = ev.waitlist ++ [(low (strip rawName), w)]) := by
  have hes : 0 ≤ eventSizeOf ev.teams (low (strip rawName)) := eventSizeOf_nonneg hTok _
  have hws : 0 ≤ wlSizeOf ev.waitlist (low (strip rawName)) := wlSizeOf_nonneg hWok _
  have hnn : 0 < nsz := by omega
  have hlt : eventSizeOf ev.teams (low (strip rawName)) +
      wlSizeOf ev.waitlist (low (strip rawName)) < nsz := by omega
  have hgt : ¬ nsz - (eventSizeOf ev.teams (low (strip rawName)) +
      wlSizeOf ev.waitlist (low (strip rawName))) ≤ ev.max_slots - ev.slots_used := by
    omega
  have hwe : w = nsz - (eventSizeOf ev.teams (low (strip rawName)) +
      wlSizeOf ev.waitlist (low (strip rawName))) - (ev.max_slots - ev.slots_used) := by
    omega
  rw [update_team_size_increase_eq ev A uid rawName nsz hname hnn hlt]
  have hwl := uts_increase_wl ev (low (strip rawName))
    (nsz - (eventSizeOf ev.teams (low (strip rawName)) +
      wlSizeOf ev.waitlist (low (strip rawName)))) hgt
  refine ⟨_, rfl, ?_, ?_⟩
  · intro q hq
    rw [hwl, hq]
    constructor
    · rw [hwe]
    · rw [List.length_set]
  · intro hq
    rw [hwl, hq, hwe]

theorem C6_witness :
    ∃ e, (update_team_size { ev := some { max_slots := 4, slots_used := 4, max_team_size := 9, teams := [("beta", 4)], waitlist := [("alpha", 2), ("zulu", 1)], expiry_date := 100 }, assigns := [] } "u1" "alpha" 5 true false).ev = some e ∧
      (∀ q, wlFirst [("alpha", 2), ("zulu", 1)] (low (strip "alpha")) = some q →
        e.waitlist = List.set [("alpha", 2), ("zulu", 1)] q.1
            (q.2.1, wlSizeOf [("alpha", 2), ("zulu", 1)] (low (strip "alpha")) + 3) ∧
          e.waitlist.length = (([("alpha", 2), ("zulu", 1)] : Waitlist)).length) ∧
      (wlFirst [("alpha", 2), ("zulu", 1)] (low (strip "alpha")) = none →
        e.waitlist = [("alpha", 2), ("zulu", 1)] ++ [(low (strip "alpha"), 3)]) := by
  have h := C6_waitlist_merge
    { max_slots := 4, slots_used := 4, max_team_size := 9, teams := [("beta", 4)], waitlist := [("alpha", 2), ("zulu", 1)], expiry_date := 100 }
    [] "u1" "alpha" 5 3 0 3 (by decide) (by unfold TeamsOK; decide) (by unfold WlOK; decide)
    (by decide) (by decide) (by decide) (by decide) (by decide) (by decide)
  exact h

/-- Claim C6, counterexample: with the event full, team `alpha` already holding
the waitlist entry `("alpha", 2)` ahead of `("zulu", 1)`, an increase sending
3 more members to the waitlist does not append any entry: the existing first
entry is overwritten to `("alpha", 5)` and the waitlist keeps its two rows,
so the result differs from appending `("alpha", 3)` at the end. -/
theorem C6_counterexample :
    (update_team_size { ev := some { max_slots := 4, slots_used := 4, max_team_size := 9, teams := [("beta", 4)], waitlist := [("alpha", 2), ("zulu", 1)], expiry_date := 100 }, assigns := [("u1", "alpha")] } "u1" "alpha" 5 false true).ev =
      some { max_slots := 4, slots_used := 4, max_team_size := 9, teams := [("beta", 4), ("alpha", 0)], waitlist := [("alpha", 5), ("zulu", 1)], expiry_date := 100 } ∧
    ¬ ([("alpha", 5), ("zulu", 1)] : Waitlist) =
        [("alpha", 2), ("zulu", 1)] ++ [("alpha", 3)] := by
  constructor
  · decide
  · decide

/-- Claim C4, amended: for a decrease of team T's total size by
`red = current_total - new_total > 0` (with `new_total > 0`), the waitlist is
cut first, but only T's *first* waitlist entry is touched: it is overwritten
to `wlSizeOf(T) - wlRed` when that is positive and removed otherwise, where
`wlRed = min(wlSizeOf(T), red)`; entries of T beyond the first are left as
they are.  When `evRed = red - wlRed = 0` the roster and `slots_used` are
unchanged; when `evRed > 0` the roster entry drops to its size minus `evRed`,
`slots_used` drops by `evRed`, and the promoter is invoked with
`freed = evRed` on the reduced state. -/
theorem C4_decrease_first_entry (ev : Event) (A : Assignments) (uid rawName : String)
    (nsz red wlRed evRed : Int) (hname : ¬ strip rawName = "")
    (hnn : 0 < nsz)
    (hred : red = eventSizeOf ev.teams (low (strip rawName)) +
      wlSizeOf ev.waitlist (low (strip rawName)) - nsz)
    (hpos : 0 < red)
    (hwlRed : wlRed = min (wlSizeOf ev.waitlist (low (strip rawName))) red)
    (hevRed : evRed = red - wlRed) :
    ∃ e, (update_team_size { ev := some ev, assigns := A } uid rawName nsz true false).ev
        = some e ∧
      (evRed = 0 → e.teams = ev.teams ∧ e.slots_used = ev.slots_used ∧
        ∀ q, wlFirst ev.waitlist (low (strip rawName)) = some q →
          e.waitlist =
            if wlSizeOf ev.waitlist (low (strip rawName)) - wlRed > 0 then
              ev.waitlist.set q.1
                (q.2.1, wlSizeOf ev.waitlist (low (strip rawName)) - wlRed)
            else ev.waitlist.eraseIdx q.1) ∧
      (0 < evRed → ∀ r, findCI ev.teams (low (strip rawName)) =
          some (r, eventSizeOf ev.teams (low (strip rawName))) →
        e = process_waitlist_after_change
          { ev with
              teams := setKey ev.teams r
                (eventSizeOf ev.teams (low (strip rawName)) - evRed),
              slots_used := ev.slots_used - evRed,
              waitlist :=
                if wlRed > 0 then
                  match wlFirst ev.waitlist (low (strip rawName)) with
                  | some q => ev.waitlist.eraseIdx q.1
                  | none => ev.waitlist
                else ev.waitlist } evRed) := by
  have hlt : nsz < eventSizeOf ev.teams (low (strip rawName)) +
      wlSizeOf ev.waitlist (low (strip rawName)) := by omega
  rw [update_team_size_decrease_eq ev A uid rawName nsz hname hnn hlt]
  have hminus : -(nsz - (eventSizeOf ev.teams (low (strip rawName)) +
      wlSizeOf ev.waitlist (low (strip rawName)))) = red := by omega
  rw [hminus]
  unfold uts_decrease
  dsimp only
  rw [← hwlRed, ← hevRed]
  refine ⟨_, rfl, ?_, ?_⟩
  · intro h0
    rw [if_neg (by omega), if_neg (by omega)]
    refine ⟨rfl, rfl, ?_⟩
    intro q hq
    dsimp only
    rw [if_pos (by omega), hq]
  · intro hpos' r hfind
    have hnes : eventSizeOf ev.teams (low (strip rawName)) - evRed = nsz := by omega
    rw [if_pos hpos', if_pos hpos', hfind]
    dsimp only
    rw [if_pos (by omega)]
    dsimp only
    have hwleq : (if wlRed > 0 then
        match wlFirst ev.waitlist (low (strip rawName)) with
        | some q =>
          if wlSizeOf ev.waitlist (low (strip rawName)) - wlRed > 0 then
            ev.waitlist.set q.1
              (q.2.1, wlSizeOf ev.waitlist (low (strip rawName)) - wlRed)
          else ev.waitlist.eraseIdx q.1
        | none => ev.waitlist
      else ev.waitlist) =
        (if wlRed > 0 then
          match wlFirst ev.waitlist (low (strip rawName)) with
          | some q => ev.waitlist.eraseIdx q.1
          | none => ev.waitlist
        else ev.waitlist) := by
      by_cases hc : wlRed > 0
      · rw [if_pos hc, if_pos hc]
        cases wlFirst ev.waitlist (low (strip rawName)) with
        | some q =>
          dsimp only
          rw [if_neg (by omega)]
        | none => rfl
      · rw [if_neg hc, if_neg hc]
    rw [hwleq]

theorem C4_witness :
    ∃ e, (update_team_size { ev := some { max_slots := 4, slots_used := 4, max_team_size := 6, teams := [("alpha", 4)], waitlist := [("alpha", 3)], expiry_date := 100 }, assigns := [] } "u1" "alpha" 5 true false).ev = some e ∧
      ((0 : Int) = 0 → e.teams = [("alpha", 4)] ∧ e.slots_used = 4 ∧
        ∀ q, wlFirst [("alpha", 3)] (low (strip "alpha")) = some q →
          e.waitlist =
            if wlSizeOf [("alpha", 3)] (low (strip "alpha")) - 2 > 0 then
              List.set [("alpha", 3)] q.1
                (q.2.1, wlSizeOf [("alpha", 3)] (low (strip "alpha")) - 2)
            else List.eraseIdx [("alpha", 3)] q.1) ∧
      ((0 : Int) < 0 → ∀ r, findCI [("alpha", 4)] (low (strip "alpha")) =
          some (r, eventSizeOf [("alpha", 4)] (low (strip "alpha"))) →
        e = process_waitlist_after_change
          { max_slots := 4,
            slots_used := 4 - 0,
            max_team_size := 6,
            teams := setKey [("alpha", 4)] r
              (eventSizeOf [("alpha", 4)] (low (strip "alpha")) - 0),
            waitlist :=
              if (2 : Int) > 0 then
                match wlFirst [("alpha", 3)] (low (strip "alpha")) with
                | some q => List.eraseIdx [("alpha", 3)] q.1
                | none => [("alpha", 3)]
              else [("alpha", 3)],
            expiry_date := 100 } 0) := by
  have h := C4_decrease_first_entry
    { max_slots := 4, slots_used := 4, max_team_size := 6, teams := [("alpha", 4)], waitlist := [("alpha", 3)], expiry_date := 100 }
    [] "u1" "alpha" 5 2 2 0 (by decide) (by decide) (by decide) (by decide) (by decide)
    (by decide)
  exact h

/-- Claim C4, counterexample: a reachable state holds two waitlist entries that
both belong (case-insensitively) to team `alpha`: `[("alpha",2),("Alpha",3)]`
(the second added by `admin_add_team`, whose duplicate check is
case-sensitive).  Reducing the team's total size from 9 to 5 should, per the
claim, remove `min(waitlist_size, 4) = 4` waitlist members of the team in
entry order, leaving it with 1; the implementation instead overwrites only
the first entry with `waitlist_size - 4 = 1`, leaving `[("alpha",1),
("Alpha",3)]` — the team still has 4 waitlist members. -/
theorem C4_counterexample :
    Reachable 4 6 100 [] { ev := some { max_slots := 4, slots_used := 4, max_team_size := 6, teams := [("alpha", 4)], waitlist := [("alpha", 2), ("Alpha", 3)], expiry_date := 100 }, assigns := [("u1", "alpha")] } ∧
    (update_team_size { ev := some { max_slots := 4, slots_used := 4, max_team_size := 6, teams := [("alpha", 4)], waitlist := [("alpha", 2), ("Alpha", 3)], expiry_date := 100 }, assigns := [("u1", "alpha")] } "u1" "alpha" 5 false true).ev =
      some { max_slots := 4, slots_used := 4, max_team_size := 6, teams := [("alpha", 4)], waitlist := [("alpha", 1), ("Alpha", 3)], expiry_date := 100 } ∧
    wlSizeOf [("alpha", 1), ("Alpha", 3)] "alpha" = 4 ∧
    ¬ wlSizeOf [("alpha", 1), ("Alpha", 3)] "alpha" =
        wlSizeOf [("alpha", 2), ("Alpha", 3)] "alpha" -
          min (wlSizeOf [("alpha", 2), ("Alpha", 3)] "alpha") 4 := by
  refine ⟨?_, by decide, by decide, by decide⟩
  have s1 : Step 4 { ev := some (create_event 4 6 100), assigns := [] }
      (update_team_size { ev := some (create_event 4 6 100), assigns := [] }
        "u1" "alpha" 4 false true) :=
    Step.set_team_size _ "u1" "alpha" 4 false true
  have e1 : update_team_size { ev := some (create_event 4 6 100), assigns := [] }
      "u1" "alpha" 4 false true =
      { ev := some { max_slots := 4, slots_used := 4, max_team_size := 6, teams := [("alpha", 4)], waitlist := [], expiry_date := 100 }, assigns := [("u1", "alpha")] } := by
    decide
  rw [e1] at s1
  have s2 : Step 4
      { ev := some { max_slots := 4, slots_used := 4, max_team_size := 6, teams := [("alpha", 4)], waitlist := [], expiry_date := 100 }, assigns := [("u1", "alpha")] }
      (update_team_size { ev := some { max_slots := 4, slots_used := 4, max_team_size := 6, teams := [("alpha", 4)], waitlist := [], expiry_date := 100 }, assigns := [("u1", "alpha")] } "u1" "alpha" 6 false true) :=
    Step.set_team_size _ "u1" "alpha" 6 false true
  have e2 : update_team_size { ev := some { max_slots := 4, slots_used := 4, max_team_size := 6, teams := [("alpha", 4)], waitlist := [], expiry_date := 100 }, assigns := [("u1", "alpha")] } "u1" "alpha" 6 false true =
      { ev := some { max_slots := 4, slots_used := 4, max_team_size := 6, teams := [("alpha", 4)], waitlist := [("alpha", 2)], expiry_date := 100 }, assigns := [("u1", "alpha")] } := by
    decide
  rw [e2] at s2
  have s3 : Step 4
      { ev := some { max_slots := 4, slots_used := 4, max_team_size := 6, teams := [("alpha", 4)], waitlist := [("alpha", 2)], expiry_date := 100 }, assigns := [("u1", "alpha")] }
      (admin_add_team { ev := some { max_slots := 4, slots_used := 4, max_team_size := 6, teams := [("alpha", 4)], waitlist := [("alpha", 2)], expiry_date := 100 }, assigns := [("u1", "alpha")] } none "Alpha" 3 true) :=
    Step.add_team _ none "Alpha" 3 true
  have e3 : admin_add_team { ev := some { max_slots := 4, slots_used := 4, max_team_size := 6, teams := [("alpha", 4)], waitlist := [("alpha", 2)], expiry_date := 100 }, assigns := [("u1", "alpha")] } none "Alpha" 3 true =
      { ev := some { max_slots := 4, slots_used := 4, max_team_size := 6, teams := [("alpha", 4)], waitlist := [("alpha", 2), ("Alpha", 3)], expiry_date := 100 }, assigns := [("u1", "alpha")] } := by
    decide
  rw [e3] at s3
  exact Relation.ReflTransGen.tail
    (Relation.ReflTransGen.tail (Relation.ReflTransGen.tail Relation.ReflTransGen.refl s1) s2)
    s3

/-- Claim C5, amended: `set_team_size(T, 0)` removes every actor-team
assignment that maps to T and, when T's waitlist total is positive, every
waitlist entry of T; of the roster it removes only the *first*
case-insensitive entry for T (when that entry's size is positive), and the
promoter is then invoked with `freed` equal to exactly that first entry's
size (the removed waitlist portion frees nothing).  When T holds no roster
slots (first-entry size `≤ 0`) the roster, `slots_used` and the promoter are
untouched. -/
theorem C5_cancellation (ev : Event) (A : Assignments) (uid rawName : String)
    (hname : ¬ strip rawName = "") :
    ∃ e, update_team_size { ev := some ev, assigns := A } uid rawName 0 true false =
        { ev := some e, assigns := A.filter (fun p => ¬ low p.2 = low (strip rawName)) } ∧
      (∀ r, findCI ev.teams (low (strip rawName)) =
          some (r, eventSizeOf ev.teams (low (strip rawName))) →
        0 < eventSizeOf ev.teams (low (strip rawName)) →
        e = process_waitlist_after_change
          { ev with
              teams := popKey ev.teams r,
              slots_used := ev.slots_used - eventSizeOf ev.teams (low (strip rawName)),
              waitlist :=
                if wlSizeOf ev.waitlist (low (strip rawName)) > 0 then
                  ev.waitlist.filter (fun p => ¬ low p.1 = low (strip rawName))
                else ev.waitlist }
          (eventSizeOf ev.teams (low (strip rawName)))) ∧
      (eventSizeOf ev.teams (low (strip rawName)) ≤ 0 →
        e.teams = ev.teams ∧ e.slots_used = ev.slots_used ∧
        e.waitlist = (if wlSizeOf ev.waitlist (low (strip rawName)) > 0 then
            ev.waitlist.filter (fun p => ¬ low p.1 = low (strip rawName))
          else ev.waitlist)) := by
  rw [update_team_size_cancel_eq ev A uid rawName hname]
  refine ⟨uts_cancel ev (low (strip rawName)), rfl, ?_, ?_⟩
  · intro r hfind hes
    unfold uts_cancel
    dsimp only
    rw [if_pos hes, if_pos hes, hfind]
    dsimp only
    have hgd : getD ev.teams r = eventSizeOf ev.teams (low (strip rawName)) :=
      (findCI_spec hfind).2.1
    rw [hgd]
  · intro hes
    unfold uts_cancel
    dsimp only
    rw [if_neg (by omega), if_neg (by omega)]
    exact ⟨rfl, rfl, rfl⟩

theorem C5_witness :
    ∃ e, update_team_size { ev := some { max_slots := 10, slots_used := 10, max_team_size := 6, teams := [("alpha", 4), ("beta", 6)], waitlist := [("alpha", 3), ("zulu", 5)], expiry_date := 100 }, assigns := [("u1", "alpha"), ("u2", "zulu")] } "u1" "alpha" 0 true false =
        { ev := some e, assigns := List.filter
            (fun p => ¬ low p.2 = low (strip "alpha"))
            [("u1", "alpha"), ("u2", "zulu")] } ∧
      (∀ r, findCI [("alpha", 4), ("beta", 6)] (low (strip "alpha")) =
          some (r, eventSizeOf [("alpha", 4), ("beta", 6)] (low (strip "alpha"))) →
        0 < eventSizeOf [("alpha", 4), ("beta", 6)] (low (strip "alpha")) →
        e = process_waitlist_after_change
          { max_slots := 10,
            slots_used := 10 - eventSizeOf [("alpha", 4), ("beta", 6)] (low (strip "alpha")),
            max_team_size := 6,
            teams := popKey [("alpha", 4), ("beta", 6)] r,
            waitlist :=
              if wlSizeOf [("alpha", 3), ("zulu", 5)] (low (strip "alpha")) > 0 then
                List.filter (fun p => ¬ low p.1 = low (strip "alpha"))
                  [("alpha", 3), ("zulu", 5)]
              else [("alpha", 3), ("zulu", 5)],
            expiry_date := 100 }
          (eventSizeOf [("alpha", 4), ("beta", 6)] (low (strip "alpha")))) ∧
      (eventSizeOf [("alpha", 4), ("beta", 6)] (low (strip "alpha")) ≤ 0 →
        e.teams = [("alpha", 4), ("beta", 6)] ∧ e.slots_used = 10 ∧
        e.waitlist = (if wlSizeOf [("alpha", 3), ("zulu", 5)] (low (strip "alpha")) > 0 then
            List.filter (fun p => ¬ low p.1 = low (strip "alpha"))
              [("alpha", 3), ("zulu", 5)]
          else [("alpha", 3), ("zulu", 5)])) := by
  have h := C5_cancellation
    { max_slots := 10, slots_used := 10, max_team_size := 6, teams := [("alpha", 4), ("beta", 6)], waitlist := [("alpha", 3), ("zulu", 5)], expiry_date := 100 }
    [("u1", "alpha"), ("u2", "zulu")] "u1" "alpha" (by decide)
  exact h

/-- Claim C5, counterexample: a reachable state holds two roster entries that
both belong (case-insensitively) to team `alpha`: `[("alpha",4),("Alpha",2)]`
(the second added by `admin_add_team`, whose duplicate check is
case-sensitive).  Cancelling the team removes only the first entry: after
`set_team_size("alpha", 0)` the roster still contains `("Alpha", 2)`, which
matches the team case-insensitively — not all roster entries for T are
removed. -/
theorem C5_counterexample :
    Reachable 10 6 100 [] { ev := some { max_slots := 10, slots_used := 6, max_team_size := 6, teams := [("alpha", 4), ("Alpha", 2)], waitlist := [], expiry_date := 100 }, assigns := [("u1", "alpha")] } ∧
    (update_team_size { ev := some { max_slots := 10, slots_used := 6, max_team_size := 6, teams := [("alpha", 4), ("Alpha", 2)], waitlist := [], expiry_date := 100 }, assigns := [("u1", "alpha")] } "u1" "alpha" 0 false true).ev =
      some { max_slots := 10, slots_used := 2, max_team_size := 6, teams := [("Alpha", 2)], waitlist := [], expiry_date := 100 } ∧
    findCI [("Alpha", 2)] "alpha" = some ("Alpha", 2) ∧
    ¬ findCI [("Alpha", 2)] "alpha" = none := by
  refine ⟨?_, by decide, by decide, by decide⟩
  have s1 : Step 10 { ev := some (create_event 10 6 100), assigns := [] }
      (update_team_size { ev := some (create_event 10 6 100), assigns := [] }
        "u1" "alpha" 4 false true) :=
    Step.set_team_size _ "u1" "alpha" 4 false true
  have e1 : update_team_size { ev := some (create_event 10 6 100), assigns := [] }
      "u1" "alpha" 4 false true =
      { ev := some { max_slots := 10, slots_used := 4, max_team_size := 6, teams := [("alpha", 4)], waitlist := [], expiry_date := 100 }, assigns := [("u1", "alpha")] } := by
    decide
  rw [e1] at s1
  have s2 : Step 10
      { ev := some { max_slots := 10, slots_used := 4, max_team_size := 6, teams := [("alpha", 4)], waitlist := [], expiry_date := 100 }, assigns := [("u1", "alpha")] }
      (admin_add_team { ev := some { max_slots := 10, slots_used := 4, max_team_size := 6, teams := [("alpha", 4)], waitlist := [], expiry_date := 100 }, assigns := [("u1", "alpha")] } none "Alpha" 2 false) :=
    Step.add_team _ none "Alpha" 2 false
  have e2 : admin_add_team { ev := some { max_slots := 10, slots_used := 4, max_team_size := 6, teams := [("alpha", 4)], waitlist := [], expiry_date := 100 }, assigns := [("u1", "alpha")] } none "Alpha" 2 false =
      { ev := some { max_slots := 10, slots_used := 6, max_team_size := 6, teams := [("alpha", 4), ("Alpha", 2)], waitlist := [], expiry_date := 100 }, assigns := [("u1", "alpha")] } := by
    decide
  rw [e2] at s2
  exact Relation.ReflTransGen.tail
    (Relation.ReflTransGen.tail Relation.ReflTransGen.refl s1) s2

/-- Claim C7: the no-zero-size invariant is violated by the code.  From a
freshly created event (capacity 2) filled by team `a`, a registration of new
team `b` while the event is full stores the roster entry `("b", 0)`: the
increase path executes `event["teams"][team_name] = event_addition` with
`event_addition = available_slots = 0` instead of leaving the roster alone,
so a reachable state contains a zero-size roster entry. -/
theorem C7_zero_size_roster_entry :
    Reachable 2 6 100 [] { ev := some { max_slots := 2, slots_used := 2, max_team_size := 6, teams := [("a", 2)], waitlist := [], expiry_date := 100 }, assigns := [("u1", "a")] } ∧
    (update_team_size { ev := some { max_slots := 2, slots_used := 2, max_team_size := 6, teams := [("a", 2)], waitlist := [], expiry_date := 100 }, assigns := [("u1", "a")] } "u9" "b" 1 false true).ev =
      some { max_slots := 2, slots_used := 2, max_team_size := 6, teams := [("a", 2), ("b", 0)], waitlist := [("b", 1)], expiry_date := 100 } ∧
    ("b", (0 : Int)) ∈ [("a", (2 : Int)), ("b", 0)] := by
  refine ⟨?_, by decide, by decide⟩
  have s1 : Step 2 { ev := some (create_event 2 6 100), assigns := [] }
      (update_team_size { ev := some (create_event 2 6 100), assigns := [] }
        "u1" "a" 2 false true) :=
    Step.set_team_size _ "u1" "a" 2 false true
  have e1 : update_team_size { ev := some (create_event 2 6 100), assigns := [] }
      "u1" "a" 2 false true =
      { ev := some { max_slots := 2, slots_used := 2, max_team_size := 6, teams := [("a", 2)], waitlist := [], expiry_date := 100 }, assigns := [("u1", "a")] } := by
    decide
  rw [e1] at s1
  exact Relation.ReflTransGen.tail Relation.ReflTransGen.refl s1

/-- Claim C8, amended: when the periodic background check finds the current
time past `expiry_date`, the event record is cleared (roster and waitlist
disappear with it), but the actor-team assignments are *kept*:
`check_waitlist_and_expiry` only executes `event_data.clear()` and leaves
`user_team_assignments` untouched. -/
theorem C8_expiry_teardown (ev : Event) (A : Assignments) (now : Int)
    (h : now > ev.expiry_date) :
    check_waitlist_and_expiry { ev := some ev, assigns := A } now =
      { ev := none, assigns := A } := by
  unfold check_waitlist_and_expiry
  dsimp only
  rw [if_pos h]

theorem C8_witness :
    check_waitlist_and_expiry { ev := some { max_slots := 4, slots_used := 0, max_team_size := 9, teams := [], waitlist := [], expiry_date := 100 }, assigns := [("u1", "alpha")] } 101 =
      { ev := none, assigns := [("u1", "alpha")] } :=
  C8_expiry_teardown
    { max_slots := 4, slots_used := 0, max_team_size := 9, teams := [], waitlist := [], expiry_date := 100 }
    [("u1", "alpha")] 101 (by decide)

/-- Claim C8, counterexample: after expiry fires, the actor-team assignment map
is unchanged and non-empty — the claim that "all actor-team assignments are
cleared" fails. -/
theorem C8_counterexample :
    check_waitlist_and_expiry { ev := some { max_slots := 4, slots_used := 0, max_team_size := 9, teams := [], waitlist := [], expiry_date := 100 }, assigns := [("u1", "alpha")] } 101 =
      { ev := none, assigns := [("u1", "alpha")] } ∧
    ¬ ([("u1", "alpha")] : Assignments) = [] := by
  constructor
  · decide
  · decide

/-- Claim C9, amended: with team `bravo` at roster size 6 and no waitlist
presence, `set_team_size("Bravo", 2)` yields `event_reduction = 4`, leaves
the roster entry at size 2 (it is *not* removed), decrements `slots_used` by
4 (not 6), and then invokes the promoter with `freed = 4` — visible here as
`zulu` gaining exactly 4 roster slots from the waitlist. -/
theorem C9_bravo_scenario :
    (update_team_size { ev := some { max_slots := 6, slots_used := 6, max_team_size := 6, teams := [("bravo", 6)], waitlist := [("zulu", 10)], expiry_date := 100 }, assigns := [("u1", "bravo")] } "u1" "Bravo" 2 false true).ev =
      some { max_slots := 6, slots_used := 6, max_team_size := 6, teams := [("bravo", 2), ("zulu", 4)], waitlist := [("zulu", 6)], expiry_date := 100 } ∧
    getD [("bravo", 2), ("zulu", 4)] "bravo" = 2 ∧
    getD [("bravo", 2), ("zulu", 4)] "zulu" = 4 ∧
    (update_team_size { ev := some { max_slots := 6, slots_used := 6, max_team_size := 6, teams := [("bravo", 6)], waitlist := [], expiry_date := 100 }, assigns := [("u1", "bravo")] } "u1" "Bravo" 2 false true).ev =
      some { max_slots := 6, slots_used := 2, max_team_size := 6, teams := [("bravo", 2)], waitlist := [], expiry_date := 100 } := by
  refine ⟨by decide, by decide, by decide, by decide⟩

/-- Claim C9, counterexample: in the claim's scenario the roster entry of
`bravo` is *not* removed — it survives with size 2 — and with an empty
waitlist `slots_used` ends at 2 (a decrement of 4), not at 0 (a decrement
of 6). -/
theorem C9_counterexample :
    (update_team_size { ev := some { max_slots := 6, slots_used := 6, max_team_size := 6, teams := [("bravo", 6)], waitlist := [], expiry_date := 100 }, assigns := [("u1", "bravo")] } "u1" "Bravo" 2 false true).ev =
      some { max_slots := 6, slots_used := 2, max_team_size := 6, teams := [("bravo", 2)], waitlist := [], expiry_date := 100 } ∧
    ¬ findCI [("bravo", 2)] "bravo" = none ∧
    ¬ (6 - 6 : Int) = 2 := by
  refine ⟨by decide, by decide, by decide⟩

theorem roster_find_agree {lg cur : RosterF} (h : RosterAgrees lg cur) (t : String) :
    (match lg.find? (fun p => low p.1 = t) with
     | some p => ((tvalSize p.2 : Int), some p.1)
     | none => ((0 : Int), (none : Option String))) =
    (match cur.find? (fun p => low p.1 = t) with
     | some p => ((tvalSize p.2 : Int), some p.1)
     | none => ((0 : Int), (none : Option String))) := by
  induction h with
  | nil => rfl
  | cons hpq hrest ih =>
    rename_i p q lg' cur'
    obtain ⟨hn, s, hp, i, hq⟩ := hpq
    simp only [List.find?, hn]
    by_cases hc : low q.1 = t
    · simp only [hc, decide_True]
      rw [hp, hq, hn]
      simp [tvalSize]
    · simp only [hc, decide_False]
      exact ih

theorem waitlist_sum_agree {lg cur : WaitlistF} (h : WaitlistAgrees lg cur) (t : String) :
    ((lg.filter (fun e => low e.1 = t)).map (fun e => e.2.1)).sum =
    ((cur.filter (fun e => e.2.2.isSome ∧ low e.1 = t)).map (fun e => e.2.1)).sum := by
  induction h with
  | nil => rfl
  | cons hpq hrest ih =>
    rename_i e f lg' cur'
    obtain ⟨hn, hs, hnone, hsome⟩ := hpq
    simp only [List.filter, hn]
    by_cases hc : low f.1 = t
    · have hcond1 : decide (low f.1 = t) = true := by simp [hc]
      have hcond2 : decide (f.2.2.isSome = true ∧ low f.1 = t) = true := by
        simp [hsome, hc]
      rw [hcond1, hcond2]
      dsimp only
      simp only [List.map_cons, List.sum_cons]
      rw [hs, ih]
    · have hcond1 : decide (low f.1 = t) = false := by simp [hc]
      have hcond2 : decide (f.2.2.isSome = true ∧ low f.1 = t) = false := by
        simp [hc]
      rw [hcond1, hcond2]
      dsimp only
      exact ih

theorem waitlist_branch_agree {lg cur : WaitlistF} (h : WaitlistAgrees lg cur) (t : String) :
    (if using_waitlist_ids lg then
        ((lg.filter (fun e => e.2.2.isSome ∧ low e.1 = t)).map (fun e => e.2.1)).sum
      else ((lg.filter (fun e => low e.1 = t)).map (fun e => e.2.1)).sum) =
    (if using_waitlist_ids cur then
        ((cur.filter (fun e => e.2.2.isSome ∧ low e.1 = t)).map (fun e => e.2.1)).sum
      else ((cur.filter (fun e => low e.1 = t)).map (fun e => e.2.1)).sum) := by
  cases h with
  | nil => rfl
  | cons hpq hrest =>
    rename_i e f lg' cur'
    obtain ⟨hn, hs, hnone, hsome⟩ := hpq
    have hul : using_waitlist_ids (e :: lg') = false := by
      obtain ⟨n, rest⟩ := e
      obtain ⟨sz, id?⟩ := rest
      simp at hnone
      simp [using_waitlist_ids, hnone]
    have huc : using_waitlist_ids (f :: cur') = true := by
      obtain ⟨n, rest⟩ := f
      obtain ⟨sz, id?⟩ := rest
      simp only [using_waitlist_ids]
      exact hsome
    rw [hul, huc]
    simp only [Bool.false_eq_true, if_false, if_true]
    exact waitlist_sum_agree (List.Forall₂.cons ⟨hn, hs, hnone, hsome⟩ hrest) t

/-- Claim C10: for any pair of states that encode the same teams once in the
legacy shape (bare integer roster values, 2-tuple waitlist entries) and once
in the current shape (`{size, id}` roster values, 3-tuple waitlist entries),
`get_team_total_size` returns the same `(event_size, waitlist_size, total)`
for every queried team name. -/
theorem C10_total_size_equiv {lg_t cur_t : RosterF} {lg_w cur_w : WaitlistF}
    (ht : RosterAgrees lg_t cur_t) (hw : WaitlistAgrees lg_w cur_w) (q : String) :
    (get_team_total_size lg_t lg_w q).1 = (get_team_total_size cur_t cur_w q).1 ∧
    (get_team_total_size lg_t lg_w q).2.1 = (get_team_total_size cur_t cur_w q).2.1 ∧
    (get_team_total_size lg_t lg_w q).2.2.1 = (get_team_total_size cur_t cur_w q).2.2.1 := by
  unfold get_team_total_size
  dsimp only
  rw [ite_self, ite_self]
  have her := roster_find_agree ht (low (strip q))
  have hws := waitlist_branch_agree hw (low (strip q))
  refine ⟨?_, ?_, ?_⟩
  · rw [her]
  · exact hws
  · rw [her, hws]

theorem C10_witness :
    (get_team_total_size [("Alpha", TVal.legacy 3)] [("beta", 2, none)] "alpha").1 =
      (get_team_total_size [("Alpha", TVal.withId 3 "id1")]
        [("beta", 2, some "id2")] "alpha").1 ∧
    (get_team_total_size [("Alpha", TVal.legacy 3)] [("beta", 2, none)] "alpha").2.1 =
      (get_team_total_size [("Alpha", TVal.withId 3 "id1")]
        [("beta", 2, some "id2")] "alpha").2.1 ∧
    (get_team_total_size [("Alpha", TVal.legacy 3)] [("beta", 2, none)] "alpha").2.2.1 =
      (get_team_total_size [("Alpha", TVal.withId 3 "id1")]
        [("beta", 2, some "id2")] "alpha").2.2.1 :=
  @C10_total_size_equiv [("Alpha", TVal.legacy 3)] [("Alpha", TVal.withId 3 "id1")]
    [("beta", 2, none)] [("beta", 2, some "id2")]
    (List.Forall₂.cons ⟨rfl, 3, rfl, "id1", rfl⟩ List.Forall₂.nil)
    (List.Forall₂.cons ⟨rfl, rfl, rfl, rfl⟩ List.Forall₂.nil) "alpha"
